import Mathlib

/-
Verification of the spec-building automation tools of the `specs` repository.

The Python sources under `spec-building/automation` are embedded shallowly:
documents are lists of characters (the file content), the regular-expression
scans of the tools are modelled by explicit left-to-right scanners with the
same matching semantics (anchoring, greediness, case folding on ASCII,
alternation order, non-overlapping resumption), Python integers are `Nat`
or `Int`, and Python float percentages are modelled as exact rationals.
File-system interaction is modelled by passing the relevant file contents
as explicit arguments.
-/

/-! ## Character and list utilities shared by the embedded tools -/

/-- ASCII model of the whitespace class of Python regular expressions
(space, tab, newline, carriage return, vertical tab, form feed). -/
def isPyWs (c : Char) : Bool :=
  c = ' ' || c = '\t' || c = '\n' || c = '\r' || c = '\x0b' || c = '\x0c'

/-- ASCII lower-casing, modelling Python case-insensitive matching. -/
def pyToLower (c : Char) : Char :=
  if 'A' ≤ c && c ≤ 'Z' then Char.ofNat (c.toNat + 32) else c

/-- Case-sensitive literal match: the first list is an initial segment of the second. -/
def litMatch : List Char → List Char → Bool
  | [], _ => true
  | _ :: _, [] => false
  | a :: as, b :: bs => a = b && litMatch as bs

/-- Case-insensitive (ASCII) literal match. -/
def litMatchCI : List Char → List Char → Bool
  | [], _ => true
  | _ :: _, [] => false
  | a :: as, b :: bs => pyToLower a = pyToLower b && litMatchCI as bs

/-- Substring test, modelling Python `needle in hay`. -/
def hasSub : (hay needle : List Char) → Bool
  | [], needle => litMatch needle []
  | h :: t, needle => litMatch needle (h :: t) || hasSub t needle

/-- Length of the maximal initial run of characters satisfying `p`. -/
def runLen (p : Char → Bool) : List Char → Nat
  | [] => 0
  | c :: cs => if p c then runLen p cs + 1 else 0

/-- Model of Python `str.strip()` (ASCII whitespace). -/
def stripChars (cs : List Char) : List Char :=
  ((cs.dropWhile (fun c => isPyWs c)).reverse.dropWhile (fun c => isPyWs c)).reverse

/-- First line of a text, modelling `text.split('\n')[0]`. -/
def firstLine (cs : List Char) : List Char := cs.takeWhile (· ≠ '\n')

/-- The line-break characters recognised by Python `str.splitlines`. -/
def isPyLineBreak (c : Char) : Bool :=
  c = '\n' || c = '\r' || c = '\x0b' || c = '\x0c' ||
  c = '\x1c' || c = '\x1d' || c = '\x1e' || c = '\x85' || c = '\u2028' || c = '\u2029'

/-- Worker for `pySplitlines`, carrying the reversed current line. -/
def splitLinesGo (acc : List Char) : List Char → List (List Char)
  | [] => if acc = [] then [] else [acc.reverse]
  | '\r' :: '\n' :: rest => acc.reverse :: splitLinesGo [] rest
  | c :: rest =>
      if isPyLineBreak c then acc.reverse :: splitLinesGo [] rest
      else splitLinesGo (c :: acc) rest

/-- Model of Python `str.splitlines()`. -/
def pySplitlines (cs : List Char) : List (List Char) := splitLinesGo [] cs

/-- Insertion into a Python dict modelled as an association list: an existing
key keeps its position and gets the new value, a new key is appended. -/
def dictSet {β : Type} (k : String) (v : β) : List (String × β) → List (String × β)
  | [] => [(k, v)]
  | (k', v') :: rest => if k' = k then (k, v) :: rest else (k', v') :: dictSet k v rest

/-- Lookup in a Python dict modelled as an association list. -/
def dictGet {β : Type} (k : String) : List (String × β) → Option β
  | [] => none
  | (k', v) :: rest => if k' = k then some v else dictGet k rest

/-- Key-membership test for a Python dict modelled as an association list. -/
def dictHasKey {β : Type} (k : String) (d : List (String × β)) : Bool :=
  (dictGet k d).isSome

/-! ## validate-alignment.py -/

namespace Alignment

/-- Numeral value of a digit run, modelling Python `int(...)` on a decimal string. -/
def digitsToNat (ds : List Char) : Nat := ds.foldl (fun a c => a * 10 + (c.toNat - 48)) 0

/-- Greedy unit alternative of the timeline pattern `(months?|weeks?)` with
IGNORECASE, tried in alternation order; returns the original matched slice. -/
def matchUnit (s : List Char) : Option (List Char) :=
  if litMatchCI "months".data s then some (s.take 6)
  else if litMatchCI "month".data s then some (s.take 5)
  else if litMatchCI "weeks".data s then some (s.take 5)
  else if litMatchCI "week".data s then some (s.take 4)
  else none

/-- Left-to-right scan for the first match of `(\d+)\s*(months?|weeks?)`
(IGNORECASE), as in `AlignmentValidator._extract_spec_data`: at each position a
maximal digit run, optional whitespace, then a unit word; on failure the scan
advances one character. -/
def timelineScan : List Char → Option (Nat × String)
  | [] => none
  | c :: rest =>
      let s := c :: rest
      let d := runLen (fun ch => ch.isDigit) s
      if d = 0 then timelineScan rest
      else
        let s1 := s.drop d
        let s2 := s1.drop (runLen isPyWs s1)
        match matchUnit s2 with
        | some u => some (digitsToNat (s.take d), String.mk u)
        | none => timelineScan rest

/-- The `timeline` entry of `spec_data`: first captured `(\d+)...(months?|weeks?)`
pair of the SPEC content, if any. -/
def extractSpecTimeline (content : String) : Option (Nat × String) :=
  timelineScan content.data

/-- Embeds `AlignmentValidator._validate_timeline_consistency`: sums the
`duration_weeks` values of the phase plans, converts the captured SPEC timeline
(`*4` when the captured unit contains the substring `month`), and returns the
warning list the method appends (empty or a single mismatch warning). -/
def timelineWarnings (timeline : Option (Nat × String)) (durations : List Int) : List String :=
  let totalWeeks : Int := durations.sum
  match timeline with
  | none => []
  | some (n, unit) =>
      let specWeeks : Int := (n : Int) * (if hasSub unit.data "month".data then 4 else 1)
      if (totalWeeks - specWeeks).natAbs > 2 then
        ["Timeline mismatch: SPEC says " ++ toString n ++ " " ++ unit ++
          ", phases total " ++ toString totalWeeks ++ " weeks"]
      else []

/-- Outcome of `AlignmentValidator._report_results`: whether the
well-aligned success message is printed, and the returned pass/fail value. -/
structure AlignOutcome where
  wellAligned : Bool
  passed : Bool
deriving DecidableEq

/-- Embeds the tail of `AlignmentValidator._report_results`: the success branch
requires no errors and fewer than five warnings, while the other branch still
returns pass exactly when the error list is empty. -/
def reportResults (errors warnings : List String) : AlignOutcome :=
  if errors = [] ∧ warnings.length < 5 then { wellAligned := true, passed := true }
  else { wellAligned := false, passed := decide (errors = []) }

end Alignment

/-! ## score-spec-quality.py: the counting scans -/

namespace Scorer

/-- First case-insensitive literal alternative (in order) matching at the head
of `s`, returning its length; models ordered regex alternation of literals. -/
def firstAltCI (words : List (List Char)) (s : List Char) : Option Nat :=
  match words with
  | [] => none
  | w :: ws => if litMatchCI w s then some w.length else firstAltCI ws s

/-- Case-sensitive variant of `firstAltCI`. -/
def firstAltCS (words : List (List Char)) (s : List Char) : Option Nat :=
  match words with
  | [] => none
  | w :: ws => if litMatch w s then some w.length else firstAltCS ws s

/-- `re.findall` count for an alternation of literal words, IGNORECASE:
count a match and resume after it, otherwise advance one character. -/
def countAltCIGo (words : List (List Char)) : Nat → List Char → Nat
  | _, [] => 0
  | 0, _ :: _ => 0
  | fuel + 1, c :: rest =>
      match firstAltCI words (c :: rest) with
      | some L => 1 + countAltCIGo words fuel ((c :: rest).drop L)
      | none => countAltCIGo words fuel rest

/-- Number of non-overlapping IGNORECASE matches of any of the literal `words`. -/
def countAltCI (words : List (List Char)) (s : List Char) : Nat :=
  countAltCIGo words s.length s

/-- `re.search` (IGNORECASE) existence test for an alternation of literal words. -/
def anyAltCI (words : List (List Char)) : List Char → Bool
  | [] => (firstAltCI words []).isSome
  | c :: rest => (firstAltCI words (c :: rest)).isSome || anyAltCI words rest

/-- Length of the maximal initial run of `#` characters. -/
def hashRun (s : List Char) : Nat := runLen (fun c => c = '#') s

/-- Suffix after the first newline; models resuming a MULTILINE scan at the
next line start. -/
def dropLine : List Char → List Char
  | [] => []
  | '\n' :: r => r
  | _ :: r => dropLine r

/-- Does `p` hold at some line start of `s` (its head position, or any position
following a newline)?  Models `re.search` of a `^`-anchored MULTILINE pattern. -/
def atLineStartsGo (p : List Char → Bool) : List Char → Bool
  | [] => false
  | c :: rest => (if c = '\n' then p rest else false) || atLineStartsGo p rest

/-- Search a `^`-anchored MULTILINE pattern: try the start of the text and every
position following a newline. -/
def anyLineStart (p : List Char → Bool) (s : List Char) : Bool :=
  p s || atLineStartsGo p s

/-- Count of line starts where `p` holds; models `re.findall` of a `^`-anchored
MULTILINE pattern whose matches never contain a further matching line start. -/
def countLineStartsGo (p : List Char → Bool) : List Char → Nat
  | [] => 0
  | c :: rest => (if c = '\n' && p rest then 1 else 0) + countLineStartsGo p rest

/-- See `countLineStartsGo`; also tries the start of the text. -/
def countLineStarts (p : List Char → Bool) (s : List Char) : Nat :=
  (if p s then 1 else 0) + countLineStartsGo p s

/-- Match of the section pattern at a line start.  The source builds the
pattern with an f-string, so the intended quantifier braces are interpolated
as the Python tuple `(1, 3)`: the resulting pattern is the literal `#`
followed by the group `(1, 3)` matching the literal text `1, 3`, then `\s+`
and the escaped section name (IGNORECASE). -/
def sectionHeadingAt (name : List Char) (s : List Char) : Bool :=
  litMatch "#1, 3".data s &&
    (let s1 := s.drop 5
     let w := runLen isPyWs s1
     decide (1 ≤ w) && litMatchCI name (s1.drop w))

/-- `re.search(rf'^#{1,3}\s+{re.escape(section)}', content, MULTILINE | IGNORECASE)`
as a boolean, from `SpecQualityScorer._score_completeness`; see
`sectionHeadingAt` for the f-string interpolation of the braces. -/
def sectionPresent (name : List Char) (content : List Char) : Bool :=
  anyLineStart (sectionHeadingAt name) content

/-- Match of `^#{3,4}\s+<marker>\d+` at a line start (marker `FR-` or `NFR-`). -/
def reqHeadingAt (marker : List Char) (s : List Char) : Bool :=
  let k := hashRun s
  (decide (k = 3) || decide (k = 4)) &&
    (let s1 := s.drop k
     let w := runLen isPyWs s1
     decide (1 ≤ w) &&
       (let s2 := s1.drop w
        litMatch marker s2 &&
          decide (1 ≤ runLen (fun c => c.isDigit) (s2.drop marker.length))))

/-- `len(re.findall(r'^#{3,4}\s+FR-\d+', content, MULTILINE))` and its `NFR-`
twin: a match never contains another matching line start, so the count is the
number of matching line starts. -/
def countReqHeadings (marker : List Char) (content : List Char) : Nat :=
  countLineStarts (reqHeadingAt marker) content

/-- `len(re.findall(r'\[(?:TBD|TODO|FIXME|XXX|PLACEHOLDER)\]', content, IGNORECASE))`:
the bracketed alternatives are plain literals. -/
def countPlaceholders (content : List Char) : Nat :=
  countAltCI (["[TBD]", "[TODO]", "[FIXME]", "[XXX]", "[PLACEHOLDER]"].map String.data) content

/-- One match attempt of `\[([^\]]+)\]\(#[^)]+\)` at the head of `s`, returning
the match length: maximal non-`]` run (at least one), `](#`, maximal non-`)`
run (at least one), `)`. -/
def linkMatchAt (s : List Char) : Option Nat :=
  match s with
  | '[' :: rest =>
      let t := runLen (fun c => c ≠ ']') rest
      if 1 ≤ t ∧ litMatch "](#".data (rest.drop t) then
        let s2 := rest.drop (t + 3)
        let u := runLen (fun c => c ≠ ')') s2
        if 1 ≤ u ∧ litMatch ")".data (s2.drop u) then some (1 + t + 3 + u + 1) else none
      else none
  | _ => none

/-- Worker for `countInternalLinks`. -/
def countLinksGo : Nat → List Char → Nat
  | _, [] => 0
  | 0, _ :: _ => 0
  | fuel + 1, c :: rest =>
      match linkMatchAt (c :: rest) with
      | some L => 1 + countLinksGo fuel ((c :: rest).drop L)
      | none => countLinksGo fuel rest

/-- `len(re.findall(r'\[([^\]]+)\]\(#[^)]+\)', content))`. -/
def countInternalLinks (content : List Char) : Nat :=
  countLinksGo content.length content

/-- The unit alternatives of the quantified-metric pattern, in alternation
order with the greedy optional plural tried first (case-sensitive). -/
def quantUnits : List (List Char) :=
  ["%", "percent", "ms", "seconds", "second", "minutes", "minute",
   "hours", "hour", "days", "day", "GB", "MB", "req/sec"].map String.data

/-- Tail `\s*(?:%|percent|...)` of the quantified-metric pattern at `t`:
maximal whitespace then a unit literal (units start with non-whitespace, so
only the maximal whitespace run can be followed by a unit). -/
def quantUnitLen (t : List Char) : Option Nat :=
  let w := runLen isPyWs t
  (firstAltCS quantUnits (t.drop w)).map (fun L => w + L)

/-- Worker for `countQuantified`: at each position, maximal digit run, greedy
optional `\.\d+`, then the whitespace-and-unit tail, retrying without the
fraction when the tail fails after it; otherwise advance one character. -/
def quantScanGo : Nat → List Char → Nat
  | _, [] => 0
  | 0, _ :: _ => 0
  | fuel + 1, c :: rest =>
      let s := c :: rest
      let d := runLen (fun ch => ch.isDigit) s
      if d = 0 then quantScanGo fuel rest
      else
        let s1 := s.drop d
        let frac : Option Nat :=
          match s1 with
          | '.' :: s2 =>
              let e := runLen (fun ch => ch.isDigit) s2
              if 1 ≤ e then some (1 + e) else none
          | _ => none
        match frac with
        | some f =>
            match quantUnitLen (s1.drop f) with
            | some uL => 1 + quantScanGo fuel (s1.drop (f + uL))
            | none =>
                match quantUnitLen s1 with
                | some uL => 1 + quantScanGo fuel (s1.drop uL)
                | none => quantScanGo fuel rest
        | none =>
            match quantUnitLen s1 with
            | some uL => 1 + quantScanGo fuel (s1.drop uL)
            | none => quantScanGo fuel rest

/-- `len(re.findall(r'\d+(?:\.\d+)?(?:\s*(?:%|percent|ms|seconds?|minutes?|hours?|days?|GB|MB|req/sec))', content))`. -/
def countQuantified (content : List Char) : Nat :=
  quantScanGo content.length content

/-- `len(re.findall(r'```(?:mermaid|diagram|ascii)', content, IGNORECASE))`:
again an alternation of plain literals. -/
def countDiagrams (content : List Char) : Nat :=
  countAltCI (["```mermaid", "```diagram", "```ascii"].map String.data) content

/-- `len(re.findall(r'^\|', content, MULTILINE))`: lines starting with a bar. -/
def countTableRows (content : List Char) : Nat :=
  countLineStarts (fun s => litMatch "|".data s) content

/-- The starred `(?:\.\d+)*` tail of the technology-version pattern: repeated
dot-plus-digits groups, greedily. -/
def dotDigitsRun : Nat → List Char → Nat
  | 0, _ => 0
  | fuel + 1, t =>
      match t with
      | '.' :: t2 =>
          let d := runLen (fun ch => ch.isDigit) t2
          if d = 0 then 0 else 1 + d + dotDigitsRun fuel (t2.drop d)
      | _ => 0

/-- `\s*\d+(?:\.\d+)*` tail of the technology-version pattern at `t`. -/
def techTail (t : List Char) : Option Nat :=
  let w := runLen isPyWs t
  let d := runLen (fun ch => ch.isDigit) (t.drop w)
  if d = 0 then none else some (w + d + dotDigitsRun t.length (t.drop (w + d)))

/-- One match attempt of `(?:version|v)\s*\d+(?:\.\d+)*` at the head of `s`:
the alternative `version` is tried first, falling back to `v`. -/
def techMatchAt (s : List Char) : Option Nat :=
  let tryV : Option Nat :=
    if litMatch "v".data s then (techTail (s.drop 1)).map (fun L => 1 + L) else none
  if litMatch "version".data s then
    match techTail (s.drop 7) with
    | some L => some (7 + L)
    | none => tryV
  else tryV

/-- Worker for `countTechMentions`. -/
def techScanGo : Nat → List Char → Nat
  | _, [] => 0
  | 0, _ :: _ => 0
  | fuel + 1, c :: rest =>
      match techMatchAt (c :: rest) with
      | some L => 1 + techScanGo fuel ((c :: rest).drop L)
      | none => techScanGo fuel rest

/-- `len(re.findall(r'(?:version|v)\s*\d+(?:\.\d+)*', content))`. -/
def countTechMentions (content : List Char) : Nat :=
  techScanGo content.length content

/-- ASCII word character, the `\w` class of Python regular expressions. -/
def isWordChar (c : Char) : Bool :=
  ('a' ≤ c && c ≤ 'z') || ('A' ≤ c && c ≤ 'Z') || ('0' ≤ c && c ≤ '9') || c = '_'

/-- One match attempt of `(?:shall|must|will)\s+\w+` at the head of `s`; the
three alternatives start with distinct characters, so at most one applies. -/
def measurableMatchAt (s : List Char) : Option Nat :=
  match firstAltCS (["shall", "must", "will"].map String.data) s with
  | none => none
  | some L =>
      let w := runLen isPyWs (s.drop L)
      if w = 0 then none
      else
        let d := runLen isWordChar (s.drop (L + w))
        if d = 0 then none else some (L + w + d)

/-- Worker for `countMeasurable`. -/
def measurableScanGo : Nat → List Char → Nat
  | _, [] => 0
  | 0, _ :: _ => 0
  | fuel + 1, c :: rest =>
      match measurableMatchAt (c :: rest) with
      | some L => 1 + measurableScanGo fuel ((c :: rest).drop L)
      | none => measurableScanGo fuel rest

/-- `len(re.findall(r'(?:shall|must|will)\s+\w+', content))`. -/
def countMeasurable (content : List Char) : Nat :=
  measurableScanGo content.length content

/-- One match attempt of `[<>≤≥]\s*\d+` at the head of `s`. -/
def thresholdMatchAt (s : List Char) : Option Nat :=
  match s with
  | c :: rest =>
      if c = '<' || c = '>' || c = '≤' || c = '≥' then
        let w := runLen isPyWs rest
        let d := runLen (fun ch => ch.isDigit) (rest.drop w)
        if d = 0 then none else some (1 + w + d)
      else none
  | [] => none

/-- Worker for `countThresholds`. -/
def thresholdScanGo : Nat → List Char → Nat
  | _, [] => 0
  | 0, _ :: _ => 0
  | fuel + 1, c :: rest =>
      match thresholdMatchAt (c :: rest) with
      | some L => 1 + thresholdScanGo fuel ((c :: rest).drop L)
      | none => thresholdScanGo fuel rest

/-- `len(re.findall(r'[<>≤≥]\s*\d+', content))`. -/
def countThresholds (content : List Char) : Nat :=
  thresholdScanGo content.length content

/-- Indices `i` (into `seg`, including its end) where the literal `w` matches
case-insensitively at `seg.drop i`, in increasing order. -/
def idxMatches (w : List Char) (seg : List Char) : List Nat :=
  (List.range (seg.length + 1)).filter (fun i => litMatchCI w (seg.drop i))

/-- Greedy tail `.*when.*then` of the scenario pattern on the rest of the line
`seg`: the match ends after the right-most `then` that has a `when` (ending at
or before its start) somewhere before it; both `.*` are greedy, so the engine
ends at that right-most feasible `then`.  Returns the consumed length. -/
def givenTailLen (seg : List Char) : Option Nat :=
  let whenIdx := idxMatches "when".data seg
  let thenIdx := idxMatches "then".data seg
  let feasible := thenIdx.filter (fun j => whenIdx.any (fun i => i + 4 ≤ j))
  (feasible.getLast?).map (fun j => j + 4)

/-- One match attempt of `(?:scenario|test case|given.*when.*then)` (IGNORECASE)
at the head of `s`; `.` does not cross a newline, so the third alternative is
confined to the rest of the current line. -/
def scenarioMatchAt (s : List Char) : Option Nat :=
  if litMatchCI "scenario".data s then some 8
  else if litMatchCI "test case".data s then some 9
  else if litMatchCI "given".data s then
    (givenTailLen ((s.drop 5).takeWhile (fun c => c ≠ '\n'))).map (fun t => 5 + t)
  else none

/-- Worker for `countScenarios`. -/
def scenarioScanGo : Nat → List Char → Nat
  | _, [] => 0
  | 0, _ :: _ => 0
  | fuel + 1, c :: rest =>
      match scenarioMatchAt (c :: rest) with
      | some L => 1 + scenarioScanGo fuel ((c :: rest).drop L)
      | none => scenarioScanGo fuel rest

/-- `len(re.findall(r'(?:scenario|test case|given.*when.*then)', content, IGNORECASE))`. -/
def countScenarios (content : List Char) : Nat :=
  scenarioScanGo content.length content

/-- `len(re.findall(r'(?:acceptance criteria|success criteria|definition of done)', content, IGNORECASE))`. -/
def countCriteria (content : List Char) : Nat :=
  countAltCI (["acceptance criteria", "success criteria", "definition of done"].map String.data) content

/-- `len(re.findall(r'(?:metric|measure|kpi|indicator)', content, IGNORECASE))`. -/
def countMetricMentions (content : List Char) : Nat :=
  countAltCI (["metric", "measure", "kpi", "indicator"].map String.data) content

/-- `len(re.findall(r'(?:because|reason|why|chose|selected)', content, IGNORECASE))`. -/
def countJustified (content : List Char) : Nat :=
  countAltCI (["because", "reason", "why", "chose", "selected"].map String.data) content

/-- `len(re.findall(r'(?:depend|require|integrate|interface)', content, IGNORECASE))`. -/
def countDeps (content : List Char) : Nat :=
  countAltCI (["depend", "require", "integrate", "interface"].map String.data) content

/-- `len(re.findall(r'(?:risk|mitigation|contingency|fallback)', content, IGNORECASE))`. -/
def countRiskMentions (content : List Char) : Nat :=
  countAltCI (["risk", "mitigation", "contingency", "fallback"].map String.data) content

/-- `bool(re.search(r'(?:timeline|schedule|phase|sprint)', content, IGNORECASE))`. -/
def hasTimelineWord (content : List Char) : Bool :=
  anyAltCI (["timeline", "schedule", "phase", "sprint"].map String.data) content

/-- `bool(re.search(r'(?:team|developer|engineer|resource)', content, IGNORECASE))`. -/
def hasTeamWord (content : List Char) : Bool :=
  anyAltCI (["team", "developer", "engineer", "resource"].map String.data) content

/-- `bool(re.search(r'(?:budget|cost|\$|dollar)', content, IGNORECASE))`. -/
def hasBudgetWord (content : List Char) : Bool :=
  anyAltCI (["budget", "cost", "$", "dollar"].map String.data) content

/-- Index of the last character of `cs` that is not a newline, if any. -/
def lastIdxNonNl : List Char → Option Nat
  | [] => none
  | c :: cs =>
      match lastIdxNonNl cs with
      | some j => some (j + 1)
      | none => if c ≠ '\n' then some 0 else none

/-- One match attempt of `^(#{1,6})\s+(.+)$` (MULTILINE, no DOTALL) at a line
start: one to six hashes (a longer run cannot match), a maximal greedy `\s+`
which may cross newlines, then at least one non-newline character up to the
line end.  When the whitespace runs to the end of the input, the engine
backtracks `\s+` so that `(.+)` starts at the last non-newline whitespace
character, which must not be the first whitespace character.  Returns the
captured level and text together with the unconsumed suffix. -/
def headingAt (s : List Char) : Option (Nat × List Char × List Char) :=
  let k := hashRun s
  if 1 ≤ k ∧ k ≤ 6 then
    let s1 := s.drop k
    let w := runLen isPyWs s1
    if 1 ≤ w then
      match s1.drop w with
      | q@(_ :: _) =>
          let text := q.takeWhile (fun c => c ≠ '\n')
          some (k, text, q.drop text.length)
      | [] =>
          match lastIdxNonNl (s1.take w) with
          | some j =>
              if 1 ≤ j then
                let text := (s1.drop j).takeWhile (fun c => c ≠ '\n')
                some (k, text, (s1.drop j).drop text.length)
              else none
          | none => none
    else none
  else none

/-- Worker for `scorerHeadings`: after a match, the scan resumes at the next
line start (the unconsumed suffix is empty or starts with the newline the `$`
matched before); after a failed line the scan moves to the next line. -/
def headingScanGo : Nat → List Char → List (Nat × List Char)
  | 0, _ => []
  | _, [] => []
  | fuel + 1, c :: rest =>
      match headingAt (c :: rest) with
      | some (k, text, after) => (k, text) :: headingScanGo fuel (dropLine after)
      | none => headingScanGo fuel (dropLine (c :: rest))

/-- `re.findall(r'^(#{1,6})\s+(.+)$', content, MULTILINE)` from
`SpecQualityScorer._score_clarity`. -/
def scorerHeadings (content : List Char) : List (Nat × List Char) :=
  headingScanGo content.length content

/-- The hierarchy loop of `_score_clarity`: starting from a previous level of
zero, any heading more than one level deeper than its predecessor makes the
hierarchy improper (the loop breaks at the first offence). -/
def properHierarchyScan (prev : Nat) : List Nat → Bool
  | [] => true
  | l :: ls => if l > prev + 1 then false else properHierarchyScan l ls

/-! ## score-spec-quality.py: dimensions and report -/

/-- Score details for a quality dimension (the `details` and `suggestions`
reporting fields carry no score information and are omitted). -/
structure DimensionScore where
  name : String
  score : Nat
  max_score : Nat
deriving DecidableEq

/-- `SpecQualityScorer.THRESHOLDS`. -/
def thresholdExcellent : Nat := 95
/-- `SpecQualityScorer.THRESHOLDS['good']`. -/
def thresholdGood : Nat := 90
/-- `SpecQualityScorer.THRESHOLDS['acceptable']`. -/
def thresholdAcceptable : Nat := 85
/-- `SpecQualityScorer.THRESHOLDS['poor']`. -/
def thresholdPoor : Nat := 70
/-- `SpecQualityScorer.THRESHOLDS['unacceptable']`. -/
def thresholdUnacceptable : Nat := 0

/-- The required-section list of `_score_completeness` (note: this list differs
from the structural validator's list). -/
def requiredSectionsScorer : List String :=
  ["Executive Summary", "Stakeholders", "Requirements",
   "System Architecture", "Risks", "Success Metrics",
   "Implementation Approach", "Constraints"]

/-- `len(found_sections)` of `_score_completeness`. -/
def foundSectionsCount (content : List Char) : Nat :=
  (requiredSectionsScorer.filter (fun sec => sectionPresent sec.data content)).length

/-- The placeholder sub-score of `_score_completeness`:
`max(0, 3 - placeholders)`, which over naturals is the truncated difference. -/
def placeholderSubScore (content : List Char) : Nat :=
  max 0 (3 - countPlaceholders content)

/-- `SpecQualityScorer._score_completeness`.  The section score
`int((found/8)*10)` is exact in floating point (denominator a power of two),
hence equal to the truncated quotient `found*10/8`. -/
def scoreCompleteness (content : List Char) : DimensionScore :=
  let sectionScore := foundSectionsCount content * 10 / 8
  let funcReqs := countReqHeadings "FR-".data content
  let nfrReqs := countReqHeadings "NFR-".data content
  let reqScore := min 8 ((funcReqs + nfrReqs) / 2)
  let placeholderScore := placeholderSubScore content
  let refScore := min 4 (countInternalLinks content / 3)
  { name := "Completeness",
    score := sectionScore + reqScore + placeholderScore + refScore,
    max_score := 25 }

/-- The structure-and-flow sub-score of `_score_clarity` on its own. -/
def structureSubScore (content : List Char) : Nat :=
  if properHierarchyScan 0 ((scorerHeadings content).map (fun h => h.1)) then 6 else 3

/-- `SpecQualityScorer._score_clarity`; the consistency sub-score is the
constant 7 of the source. -/
def scoreClarity (content : List Char) : DimensionScore :=
  let precisionScore := min 8 (countQuantified content / 3)
  let structureScore := structureSubScore content
  let consistencyScore := 7
  let diagrams := countDiagrams content
  let tables := countTableRows content
  let visualScore := min 4 (diagrams * 2 + tables / 5)
  { name := "Clarity",
    score := precisionScore + structureScore + consistencyScore + visualScore,
    max_score := 25 }

/-- `SpecQualityScorer._score_implementability`. -/
def scoreImplementability (content : List Char) : DimensionScore :=
  let techMentions := countTechMentions content
  let justifiedChoices := countJustified content
  let feasibilityScore := min 10 (techMentions * 2 + justifiedChoices / 3)
  let resourceScore :=
    (if hasTimelineWord content then 2 else 0) +
    (if hasTeamWord content then 2 else 0) +
    (if hasBudgetWord content then 2 else 0)
  let depScore := min 5 (countDeps content / 4)
  let riskScore := min 4 (countRiskMentions content / 3)
  { name := "Implementability",
    score := feasibilityScore + resourceScore + depScore + riskScore,
    max_score := 25 }

/-- `SpecQualityScorer._score_testability`. -/
def scoreTestability (content : List Char) : DimensionScore :=
  let measurableScore := min 10 (countMeasurable content / 5 + countThresholds content / 2)
  let scenarioScore := min 8 (countScenarios content)
  let criteriaScore := min 3 (countCriteria content)
  let metricsScore := min 4 (countMetricMentions content / 3)
  { name := "Testability",
    score := measurableScore + scenarioScore + criteriaScore + metricsScore,
    max_score := 25 }

/-- The four scoring dimensions selectable on the command line. -/
inductive Dim where
  | completeness
  | clarity
  | implementability
  | testability
deriving DecidableEq

/-- Dispatch of `execute` on a dimension name. -/
def scoreDim (content : List Char) : Dim → DimensionScore
  | .completeness => scoreCompleteness content
  | .clarity => scoreClarity content
  | .implementability => scoreImplementability content
  | .testability => scoreTestability content

/-- The default dimension list of `execute`. -/
def defaultDims : List Dim := [.completeness, .clarity, .implementability, .testability]

/-- `(total_score / max_score * 100) if max_score > 0 else 0`, with the Python
float arithmetic modelled by exact rationals. -/
def percentageOf (total maxS : Nat) : ℚ :=
  if maxS > 0 then (total : ℚ) / (maxS : ℚ) * 100 else 0

/-- Complete quality assessment report (the timestamp and path fields of the
source dataclass only echo the environment and are omitted). -/
structure QualityReport where
  total_score : Nat
  max_score : Nat
  dimensions : List DimensionScore
  status : String
  risk_level : String
deriving DecidableEq

/-- The status classification of `SpecQualityScorer.execute`, against
`THRESHOLDS['good']` and `THRESHOLDS['acceptable']`. -/
def statusRiskOf (percentage : ℚ) : String × String :=
  if percentage ≥ (thresholdGood : ℚ) then ("✅ READY FOR REVIEW", "Low")
  else if percentage ≥ (thresholdAcceptable : ℚ) then ("⚠️ NEEDS IMPROVEMENT", "Medium")
  else ("❌ REQUIRES SIGNIFICANT WORK", "High")

/-- The scoring and status part of `SpecQualityScorer.execute`: score the
requested dimensions, total them, and classify by the percentage. -/
def executeReport (content : List Char) (dims : List Dim) : QualityReport :=
  let dimensionScores := dims.map (scoreDim content)
  let totalScore := (dimensionScores.map (fun d => d.score)).sum
  let maxScore := (dimensionScores.map (fun d => d.max_score)).sum
  let statusRisk := statusRiskOf (percentageOf totalScore maxScore)
  { total_score := totalScore,
    max_score := maxScore,
    dimensions := dimensionScores,
    status := statusRisk.1,
    risk_level := statusRisk.2 }

end Scorer

/-! ## validate-spec-structure.py -/

namespace StructureVal

/-- Case-insensitive substring test, modelling `re.search` of a plain literal
with IGNORECASE. -/
def hasSubCI : (hay needle : List Char) → Bool
  | [], needle => litMatchCI needle []
  | h :: t, needle => litMatchCI needle (h :: t) || hasSubCI t needle

/-- A validation issue of the structural validator. -/
structure ValidationIssue where
  level : String
  category : String
  message : String
  line_number : Option Nat := none
deriving DecidableEq

/-- `SpecStructureValidator.REQUIRED_SECTIONS`. -/
def REQUIRED_SECTIONS : List (String × List String) :=
  [("Executive Summary", []),
   ("Stakeholders", []),
   ("Requirements", ["Functional Requirements", "Non-Functional Requirements"]),
   ("System Architecture", ["High-Level Architecture", "Technology Stack"]),
   ("Risks and Mitigations", []),
   ("Implementation Approach", ["Development Methodology", "Quality Standards"]),
   ("Success Metrics", ["Technical Metrics", "Business Metrics"]),
   ("Constraints and Assumptions", ["Constraints", "Assumptions"])]

/-- The heading-collection loop of `_check_required_sections`: a dict from the
stripped text of each `## ` line to the stripped texts of the following `### `
lines, with Python dict update semantics. -/
def collectHeadingsGo (d : List (String × List String)) (cur : Option String) :
    List (List Char) → List (String × List String)
  | [] => d
  | line :: rest =>
      if litMatch "## ".data line then
        let h2 := String.mk (stripChars (line.drop 3))
        collectHeadingsGo (dictSet h2 [] d) (some h2) rest
      else if litMatch "### ".data line then
        match cur with
        | some h2 =>
            if h2 = "" then collectHeadingsGo d cur rest
            else
              let sub := String.mk (stripChars (line.drop 4))
              collectHeadingsGo (dictSet h2 (((dictGet h2 d).getD []) ++ [sub]) d) cur rest
        | none => collectHeadingsGo d cur rest
      else collectHeadingsGo d cur rest

/-- The `headings` dict of `_check_required_sections`. -/
def collectHeadings (lines : List (List Char)) : List (String × List String) :=
  collectHeadingsGo [] none lines

/-- The ERROR message for an absent required section. -/
def missingSectionMsg (sect : String) : String :=
  "Missing required section: " ++ sect

/-- The WARNING message for an absent required subsection. -/
def missingSubsectionMsg (sub sect : String) : String :=
  "Missing subsection '" ++ sub ++ "' under '" ++ sect ++ "'"

/-- The checking loop of `_check_required_sections`: one ERROR per absent
section, otherwise one WARNING per absent mandated subsection. -/
def reqSecIssuesGo (hs : List (String × List String)) :
    List (String × List String) → List ValidationIssue
  | [] => []
  | (sect, subs) :: rest =>
      (if dictHasKey sect hs then
        subs.filterMap (fun sub =>
          if ((dictGet sect hs).getD []).contains sub then none
          else some { level := "WARNING", category := "Structure",
                      message := missingSubsectionMsg sub sect })
      else [{ level := "ERROR", category := "Structure", message := missingSectionMsg sect }])
      ++ reqSecIssuesGo hs rest

/-- `SpecStructureValidator._check_required_sections`. -/
def checkRequiredSections (lines : List (List Char)) : List ValidationIssue :=
  reqSecIssuesGo (collectHeadings lines) REQUIRED_SECTIONS

/-- `re.match(r'^(#{1,6})\s+(.+)$', line)` (no MULTILINE): like the scorer's
heading pattern, but the `$` must land at the end of the line or just before a
single final newline.  Returns the captured level. -/
def lineHeadingLevel (line : List Char) : Option Nat :=
  let k := Scorer.hashRun line
  if 1 ≤ k ∧ k ≤ 6 then
    let s1 := line.drop k
    let w := runLen isPyWs s1
    if 1 ≤ w then
      match s1.drop w with
      | q@(_ :: _) =>
          let rest := q.drop (q.takeWhile (fun c => c ≠ '\n')).length
          if rest = [] ∨ rest = ['\n'] then some k else none
      | [] =>
          match Scorer.lastIdxNonNl (s1.take w) with
          | some j =>
              if 1 ≤ j then
                let t := (s1.drop j).takeWhile (fun c => c ≠ '\n')
                let rest := (s1.drop j).drop t.length
                if rest = [] ∨ rest = ['\n'] then some k else none
              else none
          | none => none
    else none
  else none

/-- The WARNING message of the heading-hierarchy check. -/
def skipMsg (prev level : Nat) : String :=
  "Heading level skipped (from H" ++ toString prev ++ " to H" ++ toString level ++ ")"

/-- The heading-hierarchy loop of `_check_markdown_structure`: a heading more
than one level deeper than the previous one is a WARNING, except when it is
the first heading (`prev_level > 0` guard). -/
def headingHierarchyIssuesGo (prevLevel idx : Nat) : List (List Char) → List ValidationIssue
  | [] => []
  | line :: rest =>
      match lineHeadingLevel line with
      | some level =>
          (if level > prevLevel + 1 ∧ prevLevel > 0 then
            [{ level := "WARNING", category := "Markdown",
               message := skipMsg prevLevel level, line_number := some (idx + 1) }]
          else [])
          ++ headingHierarchyIssuesGo level (idx + 1) rest
      | none => headingHierarchyIssuesGo prevLevel (idx + 1) rest

/-- The heading-hierarchy warnings of `_check_markdown_structure`. -/
def headingHierarchyIssues (lines : List (List Char)) : List ValidationIssue :=
  headingHierarchyIssuesGo 0 0 lines

/-- The empty-section loop of `_check_markdown_structure`: a `#` line followed
by a blank line which is last or followed by another `#` line. -/
def emptySectionIssuesGo (idx : Nat) : List (List Char) → List ValidationIssue
  | a :: b :: rest =>
      (if litMatch "#".data a ∧ stripChars b = [] ∧
          (match rest with | [] => true | c :: _ => litMatch "#".data c) = true then
        [{ level := "WARNING", category := "Content",
           message := "Empty section: " ++ String.mk a, line_number := some (idx + 1) }]
      else [])
      ++ emptySectionIssuesGo (idx + 1) (b :: rest)
  | _ => []

/-- The empty-section warnings of `_check_markdown_structure`. -/
def emptySectionIssues (lines : List (List Char)) : List ValidationIssue :=
  emptySectionIssuesGo 0 lines

/-- `re.match(r'^\|[\s\-:\|]+\|$', next_line)` on a stripped line: a bar, a
non-empty run of whitespace, dashes, colons and bars, and a final bar. -/
def isSepLine (cs : List Char) : Bool :=
  match cs with
  | '|' :: rest =>
      decide (2 ≤ rest.length) &&
      rest.dropLast.all (fun c => isPyWs c || c = '-' || c = ':' || c = '|') &&
      (rest.getLast? == some '|')
  | _ => false

/-- The table-formatting loop of `_check_markdown_structure`, carrying the
`in_table` flag: lines containing a bar but not starting with one are skipped,
a table-opening line whose successor is not a separator line is a WARNING. -/
def tableIssuesGo (inTable : Bool) (idx : Nat) : List (List Char) → List ValidationIssue
  | [] => []
  | line :: rest =>
      if hasSub line "|".data ∧ ¬ litMatch "|".data (stripChars line) then
        tableIssuesGo inTable (idx + 1) rest
      else if litMatch "|".data (stripChars line) then
        (if ¬ inTable then
          match rest with
          | next :: _ =>
              if ¬ isSepLine (stripChars next) then
                [{ level := "WARNING", category := "Markdown",
                   message := "Table missing separator line", line_number := some (idx + 1) }]
              else []
          | [] => []
        else [])
        ++ tableIssuesGo true (idx + 1) rest
      else tableIssuesGo false (idx + 1) rest

/-- `SpecStructureValidator._check_markdown_structure`. -/
def checkMarkdownStructure (lines : List (List Char)) : List ValidationIssue :=
  headingHierarchyIssues lines ++ emptySectionIssues lines ++ tableIssuesGo false 0 lines

/-- Matches of a literal alternation (IGNORECASE) with the matched slices, for
the placeholder warnings. -/
def scanMatches (m : List Char → Option Nat) : Nat → List Char → List (List Char)
  | _, [] => []
  | 0, _ :: _ => []
  | fuel + 1, c :: rest =>
      match m (c :: rest) with
      | some L => (c :: rest).take L :: scanMatches m fuel ((c :: rest).drop L)
      | none => scanMatches m fuel rest

/-- Match attempt of `\[(?:TODO|TBD|FIXME|XXX|PLACEHOLDER|TBC)\]` (IGNORECASE). -/
def p1MatchAt (s : List Char) : Option Nat :=
  Scorer.firstAltCI
    (["[TODO]", "[TBD]", "[FIXME]", "[XXX]", "[PLACEHOLDER]", "[TBC]"].map String.data) s

/-- Match attempt of `(?:TODO|TBD|FIXME)(?:\s*:|\s+)` (IGNORECASE): the word,
then greedily either whitespace followed by a colon, or proper whitespace. -/
def p2MatchAt (s : List Char) : Option Nat :=
  match Scorer.firstAltCI (["TODO", "TBD", "FIXME"].map String.data) s with
  | none => none
  | some L =>
      let t := s.drop L
      let w := runLen isPyWs t
      if litMatch ":".data (t.drop w) then some (L + w + 1)
      else if 1 ≤ w then some (L + w)
      else none

/-- Match attempt of `\[(?:[Xx]+|\.{3}|___+)\]` (IGNORECASE). -/
def p3MatchAt (s : List Char) : Option Nat :=
  match s with
  | '[' :: rest =>
      let x := runLen (fun c => c = 'X' || c = 'x') rest
      if 1 ≤ x ∧ litMatch "]".data (rest.drop x) then some (1 + x + 1)
      else if litMatch "...]".data rest then some 5
      else
        let u := runLen (fun c => c = '_') rest
        if 3 ≤ u ∧ litMatch "]".data (rest.drop u) then some (1 + u + 1)
        else none
  | _ => none

/-- Match attempt of `<(?:TODO|TBD|PLACEHOLDER)>` (IGNORECASE). -/
def p4MatchAt (s : List Char) : Option Nat :=
  Scorer.firstAltCI (["<TODO>", "<TBD>", "<PLACEHOLDER>"].map String.data) s

/-- One placeholder pattern applied to every line in order, producing one
WARNING per match with the matched text. -/
def patternIssuesGo (m : List Char → Option Nat) (idx : Nat) :
    List (List Char) → List ValidationIssue
  | [] => []
  | line :: rest =>
      (scanMatches m line.length line).map (fun slice =>
        { level := "WARNING", category := "Placeholder",
          message := "Found placeholder: " ++ String.mk slice, line_number := some (idx + 1) })
      ++ patternIssuesGo m (idx + 1) rest

/-- One generic placeholder pattern (a searched predicate per line), producing
one WARNING per matching line. -/
def genericIssuesGo (p : List Char → Bool) (idx : Nat) :
    List (List Char) → List ValidationIssue
  | [] => []
  | line :: rest =>
      (if p line then
        [{ level := "WARNING", category := "Placeholder",
           message := "Found generic placeholder text", line_number := some (idx + 1) }]
      else [])
      ++ genericIssuesGo p (idx + 1) rest

/-- `re.search(r'Insert .* here', line, IGNORECASE)` style test: the opening
literal somewhere in the line, with the closing literal after it on the same
line. -/
def openCloseSearch (opening closing : List Char) : List Char → Bool
  | [] => false
  | c :: rest =>
      (litMatchCI opening (c :: rest) &&
        hasSubCI (((c :: rest).drop opening.length).takeWhile (fun ch => ch ≠ '\n')) closing)
      || openCloseSearch opening closing rest

/-- `SpecStructureValidator._check_placeholders`: the four explicit placeholder
patterns over all lines, then the generic placeholder patterns. -/
def checkPlaceholders (lines : List (List Char)) : List ValidationIssue :=
  patternIssuesGo p1MatchAt 0 lines ++
  patternIssuesGo p2MatchAt 0 lines ++
  patternIssuesGo p3MatchAt 0 lines ++
  patternIssuesGo p4MatchAt 0 lines ++
  genericIssuesGo (fun line => hasSubCI line "Lorem ipsum".data) 0 lines ++
  genericIssuesGo (openCloseSearch "Insert ".data " here".data) 0 lines ++
  genericIssuesGo (openCloseSearch "Add ".data " here".data) 0 lines ++
  genericIssuesGo (fun line => hasSubCI line "Description goes here".data) 0 lines ++
  genericIssuesGo (fun line => hasSubCI line "Coming soon".data) 0 lines

/-- The issue list of `SpecStructureValidator.execute` for a pure document
check: link checking is off by default and the modular-spec scan concerns
other files on disk, so the issues come from the three document checks. -/
def executeIssues (lines : List (List Char)) : List ValidationIssue :=
  checkRequiredSections lines ++ checkMarkdownStructure lines ++ checkPlaceholders lines

/-- The exit code of `SpecStructureValidator.execute`: 1 when there is an
ERROR, or (under `--strict`) a WARNING. -/
def executeExit (lines : List (List Char)) (strict : Bool) : Nat :=
  let issues := executeIssues lines
  let errors := issues.filter (fun i => i.level = "ERROR")
  let warnings := issues.filter (fun i => i.level = "WARNING")
  if errors ≠ [] ∨ (strict = true ∧ warnings ≠ []) then 1 else 0

end StructureVal

/-! ## validate-requirements-traceability.py -/

namespace Trace

/-- Length of the maximal initial run of `[:\s]` characters. -/
def colonWsRun (s : List Char) : Nat := runLen (fun c => c = ':' || isPyWs c) s

/-- The lazy DOTALL group `(.+?)(?=^#{1,4}|\Z)`: at least one character, up to
(excluding) the first later position that starts a line and holds a hash, or
the end of the input. -/
def takeBody : List Char → List Char
  | [] => []
  | [c] => [c]
  | c :: d :: rest => if c = '\n' ∧ d = '#' then [c] else c :: takeBody (d :: rest)

/-- One match attempt of `^#{3,4}\s+(<marker>\d+)[:\s]+(.+?)(?=^#{1,4}|\Z)`
(MULTILINE, DOTALL) at a line start: three or four hashes (a longer run cannot
match), whitespace, the marker literal (`FR-` or `NFR-`), a maximal digit run,
a maximal `[:\s]` run, then the lazy body.  When the `[:\s]` run reaches the
end of the input the engine backtracks one of its characters into the body.
Returns the captured identifier, the body, and the unconsumed suffix (empty or
a line start holding a hash). -/
def reqMatchAt (marker : List Char) (s : List Char) : Option (List Char × List Char × List Char) :=
  let k := Scorer.hashRun s
  if k = 3 ∨ k = 4 then
    let s1 := s.drop k
    let w := runLen isPyWs s1
    if 1 ≤ w then
      let s2 := s1.drop w
      if litMatch marker s2 then
        let s3 := s2.drop marker.length
        let d := runLen (fun c => c.isDigit) s3
        if 1 ≤ d then
          let s4 := s3.drop d
          let c := colonWsRun s4
          if 1 ≤ c then
            match s4.drop c with
            | q@(_ :: _) =>
                let body := takeBody q
                some (marker ++ s3.take d, body, q.drop body.length)
            | [] =>
                if 2 ≤ c then some (marker ++ s3.take d, s4.drop (c - 1), []) else none
          else none
        else none
      else none
    else none
  else none

/-- `re.finditer` of the requirement pattern: after a match the scan resumes at
the unconsumed suffix (a line start), after a failed line at the next line. -/
def reqScanGo (marker : List Char) : Nat → List Char → List (List Char × List Char)
  | _, [] => []
  | 0, _ :: _ => []
  | fuel + 1, c :: cs =>
      match reqMatchAt marker (c :: cs) with
      | some (id, body, rest) => (id, body) :: reqScanGo marker fuel rest
      | none => reqScanGo marker fuel (Scorer.dropLine (c :: cs))

/-- All requirement matches of a marker in a document. -/
def scanReqs (marker : List Char) (content : List Char) : List (List Char × List Char) :=
  reqScanGo marker content.length content

/-- The requirements dict of `_extract_requirements` for one marker: keyed by
identifier (Python dict update semantics), valued by the first line of the
stripped requirement text. -/
def buildReqDict (ms : List (List Char × List Char)) : List (String × String) :=
  ms.foldl (fun d m => dictSet (String.mk m.1) (String.mk (firstLine (stripChars m.2))) d) []

/-- `self.requirements["functional"]`. -/
def functionalReqs (content : String) : List (String × String) :=
  buildReqDict (scanReqs "FR-".data content.data)

/-- `self.requirements["non_functional"]`. -/
def nonFunctionalReqs (content : String) : List (String × String) :=
  buildReqDict (scanReqs "NFR-".data content.data)

/-- The section-body attempt after the matched hashes:
`\s+<marker>(.+?)(?=^#{1,2}|\Z)`. -/
def sectTry (marker : List Char) (t : List Char) : Option (List Char) :=
  let w := runLen isPyWs t
  if 1 ≤ w ∧ litMatch marker (t.drop w) then
    match (t.drop w).drop marker.length with
    | q@(_ :: _) => some (takeBody q)
    | [] => none
  else none

/-- One match attempt of `#{1,2}\s+<marker>(.+?)(?=^#{1,2}|\Z)` (unanchored!)
at a position: two hashes greedily, backtracking to one. -/
def sectMatchAt (marker : List Char) : List Char → Option (List Char)
  | '#' :: '#' :: t => (sectTry marker t).orElse (fun _ => sectTry marker ('#' :: t))
  | '#' :: t => sectTry marker t
  | _ => none

/-- `re.search` of the section pattern: first matching position anywhere in
the content. -/
def findSection (marker : List Char) : List Char → Option (List Char)
  | [] => none
  | c :: rest =>
      match sectMatchAt marker (c :: rest) with
      | some b => some b
      | none => findSection marker rest

/-- `arch_section.group(1)` of `_find_architecture_traces`, if the section
pattern matched. -/
def archContentOf (content : List Char) : Option (List Char) :=
  findSection "System Architecture".data content

/-- `risk_section.group(1)` of `_find_risk_traces`, if the section pattern
matched. -/
def riskContentOf (content : List Char) : Option (List Char) :=
  findSection "Risk".data content

/-- The `traced` flag a requirement ends up with (equivalently, membership in
`traces["to_architecture"]`): the identifier occurs in the architecture
section body. -/
def archTraced (content : List Char) (id : String) : Bool :=
  match archContentOf content with
  | some c => hasSub c id.data
  | none => false

/-- `all_content` of `_find_acceptance_traces`: the main spec first (it was
opened by the tool, hence exists), then the acceptance files that exist, each
followed by a newline. -/
def allAcceptanceContent (content : String) (extras : List String) : String :=
  (content :: extras).foldl (fun acc f => acc ++ f ++ "\n") ""

/-- Membership in `traces["to_acceptance"]`: the identifier occurs in the
combined acceptance content. -/
def acceptTraced (content : String) (extras : List String) (id : String) : Bool :=
  hasSub (allAcceptanceContent content extras).data id.data

/-- `high_risk_keywords` of `_find_risk_traces`. -/
def highRiskKeywords : List String := ["real-time", "performance", "security", "integration"]

/-- ASCII model of `str.lower()`. -/
def lowerStr (s : String) : String := String.mk (s.data.map pyToLower)

/-- `is_high_risk`: the lowered requirement summary contains a high-risk keyword. -/
def isHighRisk (text : String) : Bool :=
  highRiskKeywords.any (fun kw => hasSub (lowerStr text).data kw.data)

/-- The WARNING of `_find_risk_traces`. -/
def highRiskWarnMsg (id : String) : String :=
  "High-risk requirement " ++ id ++ " not addressed in risk section"

/-- The ERROR of `_validate_coverage` for an untraced functional requirement. -/
def funcErrMsg (id : String) : String :=
  "Functional requirement " ++ id ++ " not traced to architecture"

/-- The WARNING of `_validate_coverage` for a functional requirement without
acceptance scenarios. -/
def accLacksMsg (id : String) : String :=
  "Functional requirement " ++ id ++ " lacks acceptance scenarios"

/-- The WARNING of `_validate_coverage` for an untraced non-functional
requirement. -/
def nfrWarnMsg (id : String) : String :=
  "Non-functional requirement " ++ id ++ " not explicitly traced"

/-- The risk loop of `_find_risk_traces` over one requirement dict: high-risk
requirements found in the risk body go to `traces["to_risks"]`, the others
produce a WARNING. -/
def riskPassGo (rc : List Char) : List (String × String) → List String × List String
  | [] => ([], [])
  | (id, text) :: rest =>
      let p := riskPassGo rc rest
      if isHighRisk text then
        if hasSub rc id.data then (id :: p.1, p.2) else (p.1, highRiskWarnMsg id :: p.2)
      else p

/-- `_find_risk_traces`: nothing at all happens without a risk section;
otherwise the functional dict is processed before the non-functional one.
Returns (`traces["to_risks"]` keys, appended warnings). -/
def riskResults (content : String) : List String × List String :=
  match riskContentOf content.data with
  | some rc => riskPassGo rc (functionalReqs content ++ nonFunctionalReqs content)
  | none => ([], [])

/-- The errors appended by `_validate_coverage` (untraced functional
requirements; this is the only place the validator appends errors). -/
def coverageErrors (content : String) : List String :=
  (functionalReqs content).filterMap (fun r =>
    if archTraced content.data r.1 then none else some (funcErrMsg r.1))

/-- The acceptance warnings appended by `_validate_coverage`. -/
def coverageAccWarnings (content : String) (extras : List String) : List String :=
  (functionalReqs content).filterMap (fun r =>
    if acceptTraced content extras r.1 then none else some (accLacksMsg r.1))

/-- The non-functional warnings appended by `_validate_coverage`. -/
def coverageNfrWarnings (content : String) : List String :=
  (nonFunctionalReqs content).filterMap (fun r =>
    if archTraced content.data r.1 then none else some (nfrWarnMsg r.1))

/-- `self.errors` after a full `validate` run. -/
def traceErrors (content : String) : List String := coverageErrors content

/-- `self.warnings` after a full `validate` run, in append order: risk pass
first, then the coverage warnings. -/
def traceWarnings (content : String) (extras : List String) : List String :=
  (riskResults content).2 ++ coverageAccWarnings content extras ++ coverageNfrWarnings content

/-- The result of `validate` (via `_report_results`): pass exactly when no
errors were collected. -/
def tracePassed (content : String) : Bool := (traceErrors content).isEmpty

end Trace

/-! ## Derived predicates named by the claims -/

/-- An issue is the ERROR citing a given missing required section. -/
def StructureVal.citesMissing (sect : String) (i : StructureVal.ValidationIssue) : Bool :=
  i.level == "ERROR" && i.message == StructureVal.missingSectionMsg sect

/-- The level-skip scan of the structural validator on the extracted heading
levels (with its first-heading guard `prev_level > 0`). -/
def StructureVal.noSkipGuarded (prev : Nat) : List Nat → Bool
  | [] => true
  | l :: ls => !(decide (l > prev + 1) && decide (prev > 0)) && StructureVal.noSkipGuarded l ls

/-- The heading levels the structural validator matches, line by line. -/
def StructureVal.validatorHeadingLevels (lines : List (List Char)) : List Nat :=
  lines.filterMap StructureVal.lineHeadingLevel

/-- The heading levels the scorer extracts from the raw content. -/
def Scorer.scorerLevels (content : List Char) : List Nat :=
  (Scorer.scorerHeadings content).map (fun h => h.1)

/-! ## Supporting lemmas -/

/-- Appending of string data distributes over list append. -/
theorem strDataAppend (s t : String) : (s ++ t).data = s.data ++ t.data := by
  cases s; cases t; rfl

theorem litMatch_spec (n h : List Char) : litMatch n h = true ↔ n <+: h := by
  induction n generalizing h with
  | nil => simp [litMatch]
  | cons a as ih =>
    cases h with
    | nil => simp [litMatch]
    | cons b bs =>
      simp only [litMatch, Bool.and_eq_true, decide_eq_true_eq, ih, List.cons_prefix_cons]

theorem hasSub_of_infix {n h : List Char} (hinf : n <:+: h) : hasSub h n = true := by
  induction h with
  | nil =>
    have : n = [] := by simpa using hinf
    simp [this, hasSub, litMatch]
  | cons c t ih =>
    rcases List.infix_cons_iff.mp hinf with hp | hi
    · simp [hasSub, (litMatch_spec n (c :: t)).mpr hp]
    · simp [hasSub, ih hi]

theorem infix_append_right {l a : List Char} (t : List Char) (h : l <:+: a) :
    l <:+: a ++ t := h.trans ((List.prefix_append a t).isInfix)

theorem str_affix_inj (p s : String) {a b : String}
    (h : p ++ a ++ s = p ++ b ++ s) : a = b := by
  have hd := congrArg String.data h
  simp only [strDataAppend, List.append_assoc] at hd
  exact String.ext (List.append_cancel_right (List.append_cancel_left hd))

theorem str_pre_inj (p : String) {a b : String} (h : p ++ a = p ++ b) : a = b := by
  have hd := congrArg String.data h
  simp only [strDataAppend] at hd
  exact String.ext (List.append_cancel_left hd)

theorem Trace.funcErrMsg_data (id : String) :
    (Trace.funcErrMsg id).data =
      "Functional requirement ".data ++ id.data ++ " not traced to architecture".data := by
  simp [Trace.funcErrMsg, strDataAppend]

theorem Trace.accLacksMsg_data (id : String) :
    (Trace.accLacksMsg id).data =
      "Functional requirement ".data ++ id.data ++ " lacks acceptance scenarios".data := by
  simp [Trace.accLacksMsg, strDataAppend]

theorem Trace.nfrWarnMsg_data (id : String) :
    (Trace.nfrWarnMsg id).data =
      "Non-functional requirement ".data ++ id.data ++ " not explicitly traced".data := by
  simp [Trace.nfrWarnMsg, strDataAppend]

theorem Trace.highRiskWarnMsg_data (id : String) :
    (Trace.highRiskWarnMsg id).data =
      "High-risk requirement ".data ++ id.data ++ " not addressed in risk section".data := by
  simp [Trace.highRiskWarnMsg, strDataAppend]

theorem Trace.funcErrMsg_head (id : String) : (Trace.funcErrMsg id).data.head? = some 'F' := by
  rw [Trace.funcErrMsg_data]; rfl

theorem Trace.accLacksMsg_head (id : String) : (Trace.accLacksMsg id).data.head? = some 'F' := by
  rw [Trace.accLacksMsg_data]; rfl

theorem Trace.nfrWarnMsg_head (id : String) : (Trace.nfrWarnMsg id).data.head? = some 'N' := by
  rw [Trace.nfrWarnMsg_data]; rfl

theorem Trace.highRiskWarnMsg_head (id : String) :
    (Trace.highRiskWarnMsg id).data.head? = some 'H' := by
  rw [Trace.highRiskWarnMsg_data]; rfl

theorem Trace.nfr_ne_funcErr (a b : String) : Trace.nfrWarnMsg a ≠ Trace.funcErrMsg b := by
  intro h
  have h2 : (Trace.nfrWarnMsg a).data.head? = (Trace.funcErrMsg b).data.head? :=
    congrArg (fun s => String.data s |>.head?) h
  rw [Trace.nfrWarnMsg_head, Trace.funcErrMsg_head] at h2
  exact absurd h2 (by decide)

theorem Trace.accLacks_ne_highRisk (a b : String) :
    Trace.accLacksMsg a ≠ Trace.highRiskWarnMsg b := by
  intro h
  have h2 : (Trace.accLacksMsg a).data.head? = (Trace.highRiskWarnMsg b).data.head? :=
    congrArg (fun s => String.data s |>.head?) h
  rw [Trace.accLacksMsg_head, Trace.highRiskWarnMsg_head] at h2
  exact absurd h2 (by decide)

theorem Trace.accLacks_ne_nfr (a b : String) : Trace.accLacksMsg a ≠ Trace.nfrWarnMsg b := by
  intro h
  have h2 : (Trace.accLacksMsg a).data.head? = (Trace.nfrWarnMsg b).data.head? :=
    congrArg (fun s => String.data s |>.head?) h
  rw [Trace.accLacksMsg_head, Trace.nfrWarnMsg_head] at h2
  exact absurd h2 (by decide)

theorem Trace.highRiskWarnMsg_eq_iff {a b : String} :
    Trace.highRiskWarnMsg a = Trace.highRiskWarnMsg b ↔ a = b := by
  constructor
  · intro h
    unfold Trace.highRiskWarnMsg at h
    exact str_affix_inj _ _ h
  · intro h; rw [h]

theorem dictSet_mem_prov {β : Type} {k x : String} {v y : β} {d : List (String × β)}
    (h : (x, y) ∈ dictSet k v d) : (x = k ∧ y = v) ∨ (x, y) ∈ d := by
  induction d with
  | nil => simp [dictSet] at h; exact Or.inl h
  | cons a rest ih =>
    obtain ⟨k0, v0⟩ := a
    by_cases hk : k0 = k
    · simp [dictSet, hk] at h
      rcases h with ⟨h1, h2⟩ | h
      · exact Or.inl ⟨h1, h2⟩
      · exact Or.inr (List.mem_cons_of_mem _ h)
    · simp only [dictSet, if_neg hk, List.mem_cons] at h
      rcases h with h | h
      · exact Or.inr (by simp [h])
      · rcases ih h with h' | h'
        · exact Or.inl h'
        · exact Or.inr (List.mem_cons_of_mem _ h')

theorem dictGet_eq_none_iff {β : Type} {k : String} {d : List (String × β)} :
    dictGet k d = none ↔ k ∉ d.map Prod.fst := by
  induction d with
  | nil => simp [dictGet]
  | cons a rest ih =>
    obtain ⟨k0, v0⟩ := a
    by_cases hk : k0 = k
    · simp [dictGet, hk]
    · simp [dictGet, hk, ih, Ne.symm hk]

theorem dictSet_keys {β : Type} (k : String) (v : β) (d : List (String × β)) :
    (dictSet k v d).map Prod.fst =
      if k ∈ d.map Prod.fst then d.map Prod.fst else d.map Prod.fst ++ [k] := by
  induction d with
  | nil => simp [dictSet]
  | cons a rest ih =>
    obtain ⟨k0, v0⟩ := a
    by_cases hk : k0 = k
    · simp [dictSet, hk]
    · simp only [dictSet, if_neg hk, List.map_cons, ih]
      by_cases hmem : k ∈ rest.map Prod.fst
      · simp [hmem, Ne.symm hk]
      · simp [hmem, Ne.symm hk]

theorem dictSet_keys_nodup {β : Type} {k : String} {v : β} {d : List (String × β)}
    (h : (d.map Prod.fst).Nodup) : ((dictSet k v d).map Prod.fst).Nodup := by
  rw [dictSet_keys]
  by_cases hmem : k ∈ d.map Prod.fst
  · simpa [hmem] using h
  · simp [hmem, List.nodup_append, h]

theorem nodup_keys_val_unique {β : Type} {d : List (String × β)}
    (hnd : (d.map Prod.fst).Nodup) {k : String} {a b : β}
    (ha : (k, a) ∈ d) (hb : (k, b) ∈ d) : a = b := by
  induction d with
  | nil => simp at ha
  | cons x rest ih =>
    obtain ⟨k0, v0⟩ := x
    simp only [List.map_cons, List.nodup_cons] at hnd
    rcases List.mem_cons.mp ha with ha' | ha' <;> rcases List.mem_cons.mp hb with hb' | hb'
    · rw [Prod.mk.injEq] at ha' hb'; rw [ha'.2, hb'.2]
    · exfalso
      have hk : k0 = k := ((Prod.mk.injEq ..).mp ha').1.symm
      exact hnd.1 (hk ▸ List.mem_map_of_mem Prod.fst hb')
    · exfalso
      have hk : k0 = k := ((Prod.mk.injEq ..).mp hb').1.symm
      exact hnd.1 (hk ▸ List.mem_map_of_mem Prod.fst ha')
    · exact ih hnd.2 ha' hb'

theorem dictHasKey_iff {β : Type} {k : String} {d : List (String × β)} :
    dictHasKey k d = true ↔ k ∈ d.map Prod.fst := by
  unfold dictHasKey
  rw [Option.isSome_iff_ne_none, Ne, dictGet_eq_none_iff, not_not]

theorem countP_key_zero {β : Type} {d : List (String × β)} {k : String}
    (h : k ∉ d.map Prod.fst) (P : String × β → Bool) :
    d.countP (fun r => r.1 == k && P r) = 0 := by
  rw [List.countP_eq_zero]
  intro r hr hpred
  simp only [Bool.and_eq_true, beq_iff_eq] at hpred
  exact h (hpred.1 ▸ List.mem_map_of_mem Prod.fst hr)

theorem countP_key_unique {β : Type} {d : List (String × β)}
    (hnd : (d.map Prod.fst).Nodup) {k : String} {v : β} (hmem : (k, v) ∈ d)
    (P : String × β → Bool) (hP : P (k, v) = true) :
    d.countP (fun r => r.1 == k && P r) = 1 := by
  induction d with
  | nil => simp at hmem
  | cons x rest ih =>
    obtain ⟨k0, v0⟩ := x
    simp only [List.map_cons, List.nodup_cons] at hnd
    rw [List.countP_cons]
    rcases List.mem_cons.mp hmem with h | h
    · obtain ⟨hk, hv⟩ := (Prod.mk.injEq ..).mp h
      subst hk; subst hv
      have hzero : rest.countP (fun r => r.1 == k && P r) = 0 := countP_key_zero hnd.1 P
      simp [hzero, hP]
    · have hkne : k0 ≠ k := fun he => hnd.1 (he ▸ List.mem_map_of_mem Prod.fst h)
      simp [ih hnd.2 h, hkne]

theorem foldl_dictSet_mem_prov {ms : List (List Char × List Char)} :
    ∀ (acc : List (String × String)) {k v : String},
      (k, v) ∈ ms.foldl
        (fun d m => dictSet (String.mk m.1) (String.mk (firstLine (stripChars m.2))) d) acc →
      (∃ v', (k, v') ∈ acc) ∨ ∃ m ∈ ms, k = String.mk m.1 := by
  induction ms with
  | nil => intro acc k v h; exact Or.inl ⟨v, h⟩
  | cons m ms ih =>
    intro acc k v h
    simp only [List.foldl_cons] at h
    rcases ih _ h with ⟨v', hv'⟩ | ⟨m', hm', hk⟩
    · rcases dictSet_mem_prov hv' with ⟨hk, _⟩ | hacc
      · exact Or.inr ⟨m, List.mem_cons_self .., hk⟩
      · exact Or.inl ⟨v', hacc⟩
    · exact Or.inr ⟨m', List.mem_cons_of_mem _ hm', hk⟩

theorem buildReqDict_key_prov {ms : List (List Char × List Char)} {k v : String}
    (h : (k, v) ∈ Trace.buildReqDict ms) : ∃ m ∈ ms, k = String.mk m.1 := by
  rcases foldl_dictSet_mem_prov [] h with ⟨v', hv'⟩ | hm
  · simp at hv'
  · exact hm

theorem foldl_dictSet_nodup {ms : List (List Char × List Char)} :
    ∀ acc : List (String × String), (acc.map Prod.fst).Nodup →
      (((ms.foldl
        (fun d m => dictSet (String.mk m.1) (String.mk (firstLine (stripChars m.2))) d)
        acc)).map Prod.fst).Nodup := by
  induction ms with
  | nil => intro acc h; exact h
  | cons m ms ih =>
    intro acc h
    simp only [List.foldl_cons]
    exact ih _ (dictSet_keys_nodup h)

theorem buildReqDict_keys_nodup (ms : List (List Char × List Char)) :
    ((Trace.buildReqDict ms).map Prod.fst).Nodup :=
  foldl_dictSet_nodup [] (by simp)

theorem mem_filterMap_guard {α β : Type} (p : α → Bool) (g : α → β) {l : List α} {x : β}
    (h : x ∈ l.filterMap (fun r => if p r then none else some (g r))) :
    ∃ r ∈ l, p r = false ∧ x = g r := by
  rcases List.mem_filterMap.mp h with ⟨r, hr, hf⟩
  by_cases hp : p r = true
  · simp [hp] at hf
  · rw [Bool.not_eq_true] at hp
    refine ⟨r, hr, hp, ?_⟩
    rw [hp] at hf
    simp at hf
    exact hf.symm

theorem riskPassGo_toRisks_mem {rc : List Char} {reqs : List (String × String)} {id : String}
    (h : id ∈ (Trace.riskPassGo rc reqs).1) :
    ∃ r ∈ reqs, r.1 = id ∧ Trace.isHighRisk r.2 = true ∧ hasSub rc r.1.data = true := by
  induction reqs with
  | nil => simp [Trace.riskPassGo] at h
  | cons r rest ih =>
    obtain ⟨rid, rtext⟩ := r
    simp only [Trace.riskPassGo] at h
    by_cases h1 : Trace.isHighRisk rtext = true
    · by_cases h2 : hasSub rc rid.data = true
      · rw [if_pos h1, if_pos h2] at h
        rcases List.mem_cons.mp h with he | hrest
        · exact ⟨(rid, rtext), List.mem_cons_self .., he.symm, h1, h2⟩
        · obtain ⟨r', hr', hp⟩ := ih hrest
          exact ⟨r', List.mem_cons_of_mem _ hr', hp⟩
      · rw [if_pos h1, if_neg h2] at h
        obtain ⟨r', hr', hp⟩ := ih h
        exact ⟨r', List.mem_cons_of_mem _ hr', hp⟩
    · rw [if_neg h1] at h
      obtain ⟨r', hr', hp⟩ := ih h
      exact ⟨r', List.mem_cons_of_mem _ hr', hp⟩

theorem riskPassGo_warn_count (rc : List Char) (tid : String) (reqs : List (String × String)) :
    ((Trace.riskPassGo rc reqs).2).count (Trace.highRiskWarnMsg tid) =
      reqs.countP
        (fun r => r.1 == tid && (Trace.isHighRisk r.2 && !(hasSub rc r.1.data))) := by
  induction reqs with
  | nil => simp [Trace.riskPassGo]
  | cons r rest ih =>
    obtain ⟨rid, rtext⟩ := r
    simp only [Trace.riskPassGo, List.countP_cons]
    by_cases h1 : Trace.isHighRisk rtext = true
    · by_cases h2 : hasSub rc rid.data = true
      · simp [h1, h2, ih]
      · by_cases h3 : rid = tid
        · subst h3
          simp [h1, h2, ih, List.count_cons]
        · have hne : ¬ (Trace.highRiskWarnMsg tid = Trace.highRiskWarnMsg rid) := by
            rw [Trace.highRiskWarnMsg_eq_iff]
            exact fun he => h3 he.symm
          simp [h1, h2, h3, ih, List.count_cons, hne]
    · simp [h1, ih]

theorem drop_drop_suffix (s : List Char) (a b : Nat) : (s.drop a).drop b <:+ s :=
  (List.drop_suffix b (s.drop a)).trans (List.drop_suffix a s)

theorem drop_suffix_of_suffix {l s : List Char} (n : Nat) (h : l <:+ s) : l.drop n <:+ s :=
  (List.drop_suffix n l).trans h

theorem sliceProps (marker s2 : List Char) (d : Nat) (hm : litMatch marker s2 = true) :
    marker ++ (s2.drop marker.length).take d <+: s2 := by
  obtain ⟨t, ht⟩ := (litMatch_spec marker s2).mp hm
  have h3 : s2.drop marker.length = t := by rw [← ht, List.drop_left]
  refine ⟨(s2.drop marker.length).drop d, ?_⟩
  rw [List.append_assoc, List.take_append_drop, h3, ht]

theorem reqMatchAt_props {marker s : List Char} {id body rest : List Char}
    (h : Trace.reqMatchAt marker s = some (id, body, rest)) :
    (∃ ds, id = marker ++ ds) ∧ id <:+: s ∧ rest <:+ s := by
  simp only [Trace.reqMatchAt] at h
  split at h
  · split at h
    · split at h
      · rename_i hlit
        split at h
        · split at h
          · split at h
            · rename_i head tail heq
              simp only [Option.some.injEq, Prod.mk.injEq] at h
              obtain ⟨h1, h2, h3⟩ := h
              refine ⟨⟨_, h1.symm⟩, ?_, ?_⟩
              · rw [← h1]
                exact ((sliceProps marker _ _ hlit).isInfix).trans
                  (drop_drop_suffix s _ _).isInfix
              · rw [← h3, ← heq]
                exact drop_suffix_of_suffix _ (drop_suffix_of_suffix _
                  (drop_suffix_of_suffix _ (drop_suffix_of_suffix _
                    (drop_suffix_of_suffix _ (List.drop_suffix _ s)))))
            · split at h
              · simp only [Option.some.injEq, Prod.mk.injEq] at h
                obtain ⟨h1, h2, h3⟩ := h
                refine ⟨⟨_, h1.symm⟩, ?_, ?_⟩
                · rw [← h1]
                  exact ((sliceProps marker _ _ hlit).isInfix).trans
                    (drop_drop_suffix s _ _).isInfix
                · rw [← h3]
                  exact List.nil_suffix
              · simp at h
          · simp at h
        · simp at h
      · simp at h
    · simp at h
  · simp at h

theorem dropLine_suffix (s : List Char) : Scorer.dropLine s <:+ s := by
  induction s with
  | nil => simp [Scorer.dropLine]
  | cons c r ih =>
    by_cases hc : c = '\n'
    · subst hc
      simp only [Scorer.dropLine]
      exact List.suffix_cons '\n' r
    · have he : Scorer.dropLine (c :: r) = Scorer.dropLine r := by
        simp [Scorer.dropLine, hc]
      rw [he]
      exact ih.trans (List.suffix_cons c r)

theorem reqScanGo_mem {marker : List Char} :
    ∀ (fuel : Nat) (s : List Char) {id body : List Char},
      (id, body) ∈ Trace.reqScanGo marker fuel s →
      (∃ ds, id = marker ++ ds) ∧ id <:+: s := by
  intro fuel
  induction fuel with
  | zero =>
    intro s id body h
    cases s <;> simp [Trace.reqScanGo] at h
  | succ fuel ih =>
    intro s id body h
    cases s with
    | nil => simp [Trace.reqScanGo] at h
    | cons c cs =>
      rw [Trace.reqScanGo] at h
      split at h
      · rename_i mid mbody mrest hmatch
        rcases List.mem_cons.mp h with he | hrest
        · obtain ⟨h1, h2⟩ := Prod.mk.injEq .. ▸ he
          obtain ⟨hform, hinf, _⟩ := reqMatchAt_props hmatch
          exact h1 ▸ ⟨hform, hinf⟩
        · obtain ⟨hform, hinf⟩ := ih _ hrest
          obtain ⟨_, _, hsuf⟩ := reqMatchAt_props hmatch
          exact ⟨hform, hinf.trans hsuf.isInfix⟩
      · obtain ⟨hform, hinf⟩ := ih _ h
        exact ⟨hform, hinf.trans (dropLine_suffix (c :: cs)).isInfix⟩

theorem scanReqs_mem {marker content : List Char} {id body : List Char}
    (h : (id, body) ∈ Trace.scanReqs marker content) :
    (∃ ds, id = marker ++ ds) ∧ id <:+: content :=
  reqScanGo_mem _ _ h

theorem functionalReqs_key {content : String} {k v : String}
    (h : (k, v) ∈ Trace.functionalReqs content) :
    (∃ ds, k.data = "FR-".data ++ ds) ∧ k.data <:+: content.data := by
  obtain ⟨m, hm, hk⟩ := buildReqDict_key_prov h
  obtain ⟨hform, hinf⟩ := scanReqs_mem hm
  subst hk
  exact ⟨hform, hinf⟩

theorem nonFunctionalReqs_key {content : String} {k v : String}
    (h : (k, v) ∈ Trace.nonFunctionalReqs content) :
    (∃ ds, k.data = "NFR-".data ++ ds) ∧ k.data <:+: content.data := by
  obtain ⟨m, hm, hk⟩ := buildReqDict_key_prov h
  obtain ⟨hform, hinf⟩ := scanReqs_mem hm
  subst hk
  exact ⟨hform, hinf⟩

theorem nfr_key_ne_fr007 {content : String} {k v : String}
    (h : (k, v) ∈ Trace.nonFunctionalReqs content) : k ≠ "FR-007" := by
  obtain ⟨⟨ds, hds⟩, _⟩ := nonFunctionalReqs_key h
  intro he
  subst he
  have hL : ("FR-007" : String).data.head? = some 'F' := rfl
  have hR : ("NFR-".data ++ ds).head? = some 'N' := rfl
  rw [hds, hR] at hL
  exact absurd hL (by decide)

theorem foldl_append_extends (es : List String) :
    ∀ acc : String, acc.data <+: (es.foldl (fun acc f => acc ++ f ++ "\n") acc).data := by
  induction es with
  | nil => intro acc; exact List.prefix_refl _
  | cons e es ih =>
    intro acc
    simp only [List.foldl_cons]
    refine List.IsPrefix.trans ?_ (ih (acc ++ e ++ "\n"))
    rw [strDataAppend, strDataAppend]
    exact ⟨e.data ++ "\n".data, (List.append_assoc ..).symm⟩

theorem content_prefix_allAcceptance (content : String) (extras : List String) :
    content.data <+: (Trace.allAcceptanceContent content extras).data := by
  unfold Trace.allAcceptanceContent
  simp only [List.foldl_cons]
  refine List.IsPrefix.trans ?_ (foldl_append_extends extras ("" ++ content ++ "\n"))
  rw [strDataAppend, strDataAppend]
  exact ⟨"\n".data, by simp⟩

theorem acceptTraced_of_mem_func {content : String} {extras : List String} {k v : String}
    (h : (k, v) ∈ Trace.functionalReqs content) :
    Trace.acceptTraced content extras k = true := by
  obtain ⟨_, hinf⟩ := functionalReqs_key h
  unfold Trace.acceptTraced
  apply hasSub_of_infix
  obtain ⟨t, ht⟩ := content_prefix_allAcceptance content extras
  rw [← ht]
  exact infix_append_right t hinf

theorem acceptTraced_of_mem_nfr {content : String} {extras : List String} {k v : String}
    (h : (k, v) ∈ Trace.nonFunctionalReqs content) :
    Trace.acceptTraced content extras k = true := by
  obtain ⟨_, hinf⟩ := nonFunctionalReqs_key h
  unfold Trace.acceptTraced
  apply hasSub_of_infix
  obtain ⟨t, ht⟩ := content_prefix_allAcceptance content extras
  rw [← ht]
  exact infix_append_right t hinf

theorem coverageAccWarnings_nil (content : String) (extras : List String) :
    Trace.coverageAccWarnings content extras = [] := by
  unfold Trace.coverageAccWarnings
  rw [List.filterMap_eq_nil_iff]
  intro r hr
  obtain ⟨k, v⟩ := r
  rw [acceptTraced_of_mem_func hr]
  simp

theorem Trace.nfr_ne_highRisk (a b : String) : Trace.nfrWarnMsg a ≠ Trace.highRiskWarnMsg b := by
  intro h
  have h2 : (Trace.nfrWarnMsg a).data.head? = (Trace.highRiskWarnMsg b).data.head? :=
    congrArg (fun s => String.data s |>.head?) h
  rw [Trace.nfrWarnMsg_head, Trace.highRiskWarnMsg_head] at h2
  exact absurd h2 (by decide)

theorem riskPassGo_warn_mem {rc : List Char} {reqs : List (String × String)} {w : String}
    (h : w ∈ (Trace.riskPassGo rc reqs).2) :
    ∃ r ∈ reqs, w = Trace.highRiskWarnMsg r.1 := by
  induction reqs with
  | nil => simp [Trace.riskPassGo] at h
  | cons r rest ih =>
    obtain ⟨rid, rtext⟩ := r
    simp only [Trace.riskPassGo] at h
    by_cases h1 : Trace.isHighRisk rtext = true
    · by_cases h2 : hasSub rc rid.data = true
      · rw [if_pos h1, if_pos h2] at h
        obtain ⟨r', hr', hp⟩ := ih h
        exact ⟨r', List.mem_cons_of_mem _ hr', hp⟩
      · rw [if_pos h1, if_neg h2] at h
        rcases List.mem_cons.mp h with he | hrest
        · exact ⟨(rid, rtext), List.mem_cons_self .., he⟩
        · obtain ⟨r', hr', hp⟩ := ih hrest
          exact ⟨r', List.mem_cons_of_mem _ hr', hp⟩
    · rw [if_neg h1] at h
      obtain ⟨r', hr', hp⟩ := ih h
      exact ⟨r', List.mem_cons_of_mem _ hr', hp⟩

theorem count_highRisk_nfrWarns_zero (content : String) (tid : String) :
    (Trace.coverageNfrWarnings content).count (Trace.highRiskWarnMsg tid) = 0 := by
  rw [List.count_eq_zero]
  intro hmem
  obtain ⟨r, hr, hfalse, heq⟩ := mem_filterMap_guard
    (fun r : String × String => Trace.archTraced content.data r.1)
    (fun r : String × String => Trace.nfrWarnMsg r.1)
    (by unfold Trace.coverageNfrWarnings at hmem; exact hmem)
  exact Trace.nfr_ne_highRisk r.1 tid heq.symm

theorem fr007_not_nfr_key (content : String) :
    "FR-007" ∉ (Trace.nonFunctionalReqs content).map Prod.fst := by
  intro h
  obtain ⟨r, hr, he⟩ := List.mem_map.mp h
  obtain ⟨k, v⟩ := r
  exact nfr_key_ne_fr007 hr he

/-- Claim C4: in the Traceability Validator, every functional requirement whose
identifier does not occur in the System Architecture section body yields the
untraced-to-architecture ERROR, every such non-functional requirement yields
only the not-explicitly-traced WARNING (never an error), and the validation
fails exactly when at least one error was produced. -/
theorem C4_traceability_coverage (content : String) (extras : List String) :
    (∀ id text, (id, text) ∈ Trace.functionalReqs content →
        Trace.archTraced content.data id = false →
        Trace.funcErrMsg id ∈ Trace.traceErrors content) ∧
    (∀ id text, (id, text) ∈ Trace.nonFunctionalReqs content →
        Trace.archTraced content.data id = false →
        Trace.nfrWarnMsg id ∈ Trace.traceWarnings content extras ∧
          Trace.nfrWarnMsg id ∉ Trace.traceErrors content) ∧
    (Trace.tracePassed content = false ↔ Trace.traceErrors content ≠ []) := by
  refine ⟨?_, ?_, ?_⟩
  · intro id text hmem harch
    unfold Trace.traceErrors Trace.coverageErrors
    exact List.mem_filterMap.mpr ⟨(id, text), hmem, by simp [harch]⟩
  · intro id text hmem harch
    constructor
    · unfold Trace.traceWarnings
      refine List.mem_append.mpr (Or.inr ?_)
      unfold Trace.coverageNfrWarnings
      exact List.mem_filterMap.mpr ⟨(id, text), hmem, by simp [harch]⟩
    · intro hmem2
      unfold Trace.traceErrors Trace.coverageErrors at hmem2
      obtain ⟨r, hr, hfalse, heq⟩ := mem_filterMap_guard
        (fun r : String × String => Trace.archTraced content.data r.1)
        (fun r : String × String => Trace.funcErrMsg r.1) hmem2
      exact Trace.nfr_ne_funcErr id r.1 heq
  · unfold Trace.tracePassed
    constructor
    · intro h he
      rw [he] at h
      simp [List.isEmpty] at h
    · intro h
      cases hval : Trace.traceErrors content with
      | nil => exact absurd hval h
      | cons a l => rfl

/-- Claim C10: every requirement the Traceability Validator extracts receives
the acceptance trace, because the probed acceptance content starts with the
specification itself, in which the extracted identifier occurs by construction;
the lacks-acceptance-scenarios WARNING is therefore unreachable. -/
theorem C10_acceptance_always_traced (content : String) (extras : List String) :
    (∀ id text, (id, text) ∈ Trace.functionalReqs content →
        Trace.acceptTraced content extras id = true) ∧
    (∀ id text, (id, text) ∈ Trace.nonFunctionalReqs content →
        Trace.acceptTraced content extras id = true) ∧
    Trace.coverageAccWarnings content extras = [] ∧
    (∀ id, Trace.accLacksMsg id ∉ Trace.traceWarnings content extras) := by
  refine ⟨fun id text h => acceptTraced_of_mem_func h,
          fun id text h => acceptTraced_of_mem_nfr h,
          coverageAccWarnings_nil content extras, ?_⟩
  intro id hmem
  unfold Trace.traceWarnings at hmem
  rw [coverageAccWarnings_nil] at hmem
  rcases List.mem_append.mp hmem with h1 | h2
  · rcases List.mem_append.mp h1 with h1a | h1b
    · unfold Trace.riskResults at h1a
      cases hrc : Trace.riskContentOf content.data with
      | none => rw [hrc] at h1a; simp at h1a
      | some rc =>
          rw [hrc] at h1a
          obtain ⟨r, hr, he⟩ := riskPassGo_warn_mem h1a
          exact Trace.accLacks_ne_highRisk id r.1 he
    · simp at h1b
  · obtain ⟨r, hr, hfalse, heq⟩ := mem_filterMap_guard
      (fun r : String × String => Trace.archTraced content.data r.1)
      (fun r : String × String => Trace.nfrWarnMsg r.1)
      (by unfold Trace.coverageNfrWarnings at h2; exact h2)
    exact Trace.accLacks_ne_nfr id r.1 heq

/-- Claim C7: a requirement FR-007 whose summary contains the high-risk
keyword `security`, in a document with a Risks section whose body does not
contain the identifier, is classified high-risk, gets no risk trace, and the
run produces exactly one WARNING naming FR-007 as high-risk and unaddressed. -/
theorem C7_fr007_high_risk_warning (content : String) (extras : List String)
    (text : String) (rc : List Char)
    (hrc : Trace.riskContentOf content.data = some rc)
    (hmem : ("FR-007", text) ∈ Trace.functionalReqs content)
    (hsec : hasSub (Trace.lowerStr text).data "security".data = true)
    (hnot : hasSub rc "FR-007".data = false) :
    Trace.isHighRisk text = true ∧
    "FR-007" ∉ (Trace.riskResults content).1 ∧
    (Trace.traceWarnings content extras).count (Trace.highRiskWarnMsg "FR-007") = 1 := by
  have hhr : Trace.isHighRisk text = true := by
    unfold Trace.isHighRisk
    rw [List.any_eq_true]
    exact ⟨"security", by simp [Trace.highRiskKeywords], hsec⟩
  refine ⟨hhr, ?_, ?_⟩
  · intro hin
    unfold Trace.riskResults at hin
    rw [hrc] at hin
    obtain ⟨r, hr, hid, hhr', hsub⟩ := riskPassGo_toRisks_mem hin
    rcases List.mem_append.mp hr with hf | hn
    · obtain ⟨rid, rtext⟩ := r
      simp only at hid
      subst hid
      have hval : rtext = text :=
        nodup_keys_val_unique (buildReqDict_keys_nodup _) hf hmem
      rw [hnot] at hsub
      exact Bool.false_ne_true hsub
    · obtain ⟨rid, rtext⟩ := r
      simp only at hid
      subst hid
      exact nfr_key_ne_fr007 hn rfl
  · unfold Trace.traceWarnings
    rw [List.count_append, List.count_append, coverageAccWarnings_nil,
      count_highRisk_nfrWarns_zero]
    unfold Trace.riskResults
    rw [hrc, riskPassGo_warn_count, List.countP_append]
    have hfunc : (Trace.functionalReqs content).countP
        (fun r => r.1 == "FR-007" && (Trace.isHighRisk r.2 && !(hasSub rc r.1.data))) = 1 := by
      refine countP_key_unique (buildReqDict_keys_nodup _) hmem _ ?_
      simp [hhr, hnot]
    have hnfr : (Trace.nonFunctionalReqs content).countP
        (fun r => r.1 == "FR-007" && (Trace.isHighRisk r.2 && !(hasSub rc r.1.data))) = 0 :=
      countP_key_zero (fr007_not_nfr_key content) _
    rw [hfunc, hnfr]
    rfl

/-- Claim C5 counterexample: with zero errors and exactly five warnings the
claim demands a fail outcome, but `_report_results` still returns pass (its
else branch returns `len(errors) == 0`). -/
theorem C5_counterexample :
    (Alignment.reportResults [] ["w1", "w2", "w3", "w4", "w5"]).passed = true ∧
    (Alignment.reportResults [] ["w1", "w2", "w3", "w4", "w5"]).wellAligned = false ∧
    ¬ (["w1", "w2", "w3", "w4", "w5"].length < 5) := by decide

/-- Claim C5 as amended: the returned result of the Cross-Document Alignment
Validator is pass exactly when there are zero errors, regardless of the
warning count; zero errors together with fewer than five warnings govern only
the well-aligned success message. -/
theorem C5_amended (errors warnings : List String) :
    ((Alignment.reportResults errors warnings).passed = true ↔ errors = []) ∧
    ((Alignment.reportResults errors warnings).wellAligned = true ↔
      (errors = [] ∧ warnings.length < 5)) := by
  unfold Alignment.reportResults
  by_cases h : errors = [] ∧ warnings.length < 5
  · simp [h]
  · simp only [if_neg h]
    constructor
    · simp
    · simpa using h

/-- Claim C8 counterexample: a specification declaring a timeline of `6 Months`
(capitalised) with phase plans totalling 6 weeks.  The claim converts the
6-month timeline to 24 weeks and demands a mismatch WARNING (the difference 18
exceeds 2), but the code checks `"month" in spec_unit` case-sensitively, treats
the captured unit `Months` as weeks and emits nothing. -/
theorem C8_counterexample :
    Alignment.extractSpecTimeline "Timeline: 6 Months" = some (6, "Months") ∧
    2 < (([6] : List Int).sum - (6 : Int) * 4).natAbs ∧
    Alignment.timelineWarnings (Alignment.extractSpecTimeline "Timeline: 6 Months") [6] = [] := by
  refine ⟨by decide, by decide, by decide⟩

/-- Claim C8 as amended: the months-to-weeks conversion applies only when the
captured unit contains the lowercase substring `month`; under that conversion
the mismatch WARNING is emitted exactly when the absolute difference between
the summed phase durations and the converted timeline exceeds 2 weeks, and
otherwise (unit without lowercase `month`) the captured number is compared as
weeks. -/
theorem C8_amended (content : String) (durations : List Int) (n : Nat) (unit : String)
    (_hex : Alignment.extractSpecTimeline content = some (n, unit)) :
    (hasSub unit.data "month".data = true →
      (Alignment.timelineWarnings (some (n, unit)) durations ≠ [] ↔
        2 < (durations.sum - (n : Int) * 4).natAbs)) ∧
    (hasSub unit.data "month".data = false →
      (Alignment.timelineWarnings (some (n, unit)) durations ≠ [] ↔
        2 < (durations.sum - (n : Int)).natAbs)) := by
  constructor <;> intro hm
  · by_cases h : 2 < (durations.sum - (n : Int) * 4).natAbs
    · simp [Alignment.timelineWarnings, hm, h]
    · simp [Alignment.timelineWarnings, hm, h]
  · by_cases h : 2 < (durations.sum - (n : Int)).natAbs
    · simp [Alignment.timelineWarnings, hm, h, mul_one]
    · simp [Alignment.timelineWarnings, hm, h, mul_one]

/-- Claim C8 witness: a lowercase 6-month timeline against phase plans
totalling 20 weeks (difference 4 weeks) produces the mismatch WARNING. -/
theorem C8_witness :
    Alignment.timelineWarnings (some (6, "months")) [20] ≠ [] := by
  have h := C8_amended "The project takes 6 months." [20] 6 "months" (by decide)
  exact (h.1 (by decide)).mpr (by decide)

/-- Claim C4 witness: a document with one functional and one non-functional
requirement and no System Architecture section. -/
theorem C4_witness :
    Trace.funcErrMsg "FR-001" ∈ Trace.traceErrors "### FR-001: alpha\n### NFR-001: beta" ∧
    Trace.nfrWarnMsg "NFR-001" ∈ Trace.traceWarnings "### FR-001: alpha\n### NFR-001: beta" [] ∧
    Trace.nfrWarnMsg "NFR-001" ∉ Trace.traceErrors "### FR-001: alpha\n### NFR-001: beta" := by
  have h := C4_traceability_coverage "### FR-001: alpha\n### NFR-001: beta" []
  have h1 := h.1 "FR-001" "alpha" (by decide) (by decide)
  have h2 := h.2.1 "NFR-001" "beta" (by decide) (by decide)
  exact ⟨h1, h2.1, h2.2⟩

/-- Claim C10 witness: the identifier of an extracted requirement is traced to
acceptance in a minimal document. -/
theorem C10_witness :
    Trace.acceptTraced "### FR-001: alpha" [] "FR-001" = true :=
  (C10_acceptance_always_traced "### FR-001: alpha" []).1 "FR-001" "alpha" (by decide)

/-- Claim C7 witness: a concrete document with requirement FR-007 mentioning
security and a Risks section that does not mention FR-007. -/
theorem C7_witness :
    Trace.isHighRisk "security feature" = true ∧
    "FR-007" ∉ (Trace.riskResults "### FR-007: security feature\n## Risks\nnone here").1 ∧
    (Trace.traceWarnings "### FR-007: security feature\n## Risks\nnone here" []).count
      (Trace.highRiskWarnMsg "FR-007") = 1 :=
  C7_fr007_high_risk_warning "### FR-007: security feature\n## Risks\nnone here" []
    "security feature" "s\nnone here".data (by decide) (by decide) (by decide) (by decide)

theorem missingSectionMsg_beq (s sect : String) :
    (StructureVal.missingSectionMsg s == StructureVal.missingSectionMsg sect) = (s == sect) := by
  by_cases h : s = sect
  · simp [h]
  · have hne : StructureVal.missingSectionMsg s ≠ StructureVal.missingSectionMsg sect := by
      intro he
      unfold StructureVal.missingSectionMsg at he
      exact h (str_pre_inj _ he)
    simp [h, hne]

theorem reqSec_warns_no_cite {hs : List (String × List String)} (sect s : String)
    (subs : List String) :
    (subs.filterMap (fun sub =>
      if ((dictGet s hs).getD []).contains sub then none
      else some { level := "WARNING", category := "Structure",
                  message := StructureVal.missingSubsectionMsg sub s,
                  line_number := none : StructureVal.ValidationIssue })).countP
      (StructureVal.citesMissing sect) = 0 := by
  rw [List.countP_eq_zero]
  intro i hi
  obtain ⟨sub, hsub, hf⟩ := List.mem_filterMap.mp hi
  by_cases hc : ((dictGet s hs).getD []).contains sub = true
  · rw [if_pos hc] at hf
    exact absurd hf (by simp)
  · rw [if_neg hc] at hf
    have he := Option.some.inj hf
    rw [← he]
    simp [StructureVal.citesMissing]

theorem reqSecGo_countP (hs : List (String × List String)) (sect : String) :
    ∀ todo : List (String × List String),
      (StructureVal.reqSecIssuesGo hs todo).countP (StructureVal.citesMissing sect) =
        todo.countP (fun e => e.1 == sect && !(dictHasKey e.1 hs)) := by
  intro todo
  induction todo with
  | nil => simp [StructureVal.reqSecIssuesGo]
  | cons e rest ih =>
    obtain ⟨s, subs⟩ := e
    simp only [StructureVal.reqSecIssuesGo]
    by_cases hk : dictHasKey s hs = true
    · rw [if_pos hk, List.countP_append, reqSec_warns_no_cite sect s subs, ih, List.countP_cons]
      simp [hk]
    · rw [if_neg hk, List.countP_append, ih, List.countP_cons, List.countP_cons, List.countP_nil]
      have hcite : (StructureVal.citesMissing sect
          { level := "ERROR", category := "Structure",
            message := StructureVal.missingSectionMsg s, line_number := none }) = (s == sect) := by
        simp [StructureVal.citesMissing, missingSectionMsg_beq]
      rw [Bool.not_eq_true] at hk
      by_cases hse : s = sect
      · subst hse
        simp [hcite, hk]
        omega
      · simp [hcite, hse, hk]

theorem collectGo_key {lines : List (List Char)} :
    ∀ (d : List (String × List String)) (cur : Option String) {k : String},
      dictHasKey k (StructureVal.collectHeadingsGo d cur lines) = true →
      dictHasKey k d = true ∨ cur = some k ∨
        ∃ line ∈ lines, litMatch "## ".data line = true ∧
          String.mk (stripChars (line.drop 3)) = k := by
  induction lines with
  | nil => intro d cur k h; exact Or.inl h
  | cons line rest ih =>
    intro d cur k h
    rw [StructureVal.collectHeadingsGo.eq_def] at h
    simp only [] at h
    by_cases h2 : litMatch "## ".data line = true
    · rw [if_pos h2] at h
      rcases ih _ _ h with hd | hcur | ⟨l, hl, hp⟩
      · rw [dictHasKey_iff, dictSet_keys] at hd
        by_cases hmem : String.mk (stripChars (line.drop 3)) ∈ d.map Prod.fst
        · rw [if_pos hmem] at hd
          exact Or.inl (dictHasKey_iff.mpr hd)
        · rw [if_neg hmem] at hd
          rcases List.mem_append.mp hd with hd' | hd'
          · exact Or.inl (dictHasKey_iff.mpr hd')
          · refine Or.inr (Or.inr ⟨line, List.mem_cons_self .., h2, ?_⟩)
            exact (List.mem_singleton.mp hd').symm
      · refine Or.inr (Or.inr ⟨line, List.mem_cons_self .., h2, ?_⟩)
        exact Option.some.inj hcur
      · exact Or.inr (Or.inr ⟨l, List.mem_cons_of_mem _ hl, hp⟩)
    · rw [if_neg h2] at h
      by_cases h3 : litMatch "### ".data line = true
      · rw [if_pos h3] at h
        split at h
        · rename_i h2key
          split at h
          · rcases ih _ _ h with hd | hcur' | ⟨l, hl, hp⟩
            · exact Or.inl hd
            · exact Or.inr (Or.inl hcur')
            · exact Or.inr (Or.inr ⟨l, List.mem_cons_of_mem _ hl, hp⟩)
          · rcases ih _ _ h with hd | hcur' | ⟨l, hl, hp⟩
            · rw [dictHasKey_iff, dictSet_keys] at hd
              by_cases hmem : h2key ∈ d.map Prod.fst
              · rw [if_pos hmem] at hd
                exact Or.inl (dictHasKey_iff.mpr hd)
              · rw [if_neg hmem] at hd
                rcases List.mem_append.mp hd with hd' | hd'
                · exact Or.inl (dictHasKey_iff.mpr hd')
                · exact Or.inr (Or.inl (by rw [List.mem_singleton.mp hd']))
            · exact Or.inr (Or.inl hcur')
            · exact Or.inr (Or.inr ⟨l, List.mem_cons_of_mem _ hl, hp⟩)
        · rcases ih _ _ h with hd | hcur' | ⟨l, hl, hp⟩
          · exact Or.inl hd
          · exact Or.inr (Or.inl hcur')
          · exact Or.inr (Or.inr ⟨l, List.mem_cons_of_mem _ hl, hp⟩)
      · rw [if_neg h3] at h
        rcases ih _ _ h with hd | hcur' | ⟨l, hl, hp⟩
        · exact Or.inl hd
        · exact Or.inr (Or.inl hcur')
        · exact Or.inr (Or.inr ⟨l, List.mem_cons_of_mem _ hl, hp⟩)

theorem citesMissing_level {sect : String} {i : StructureVal.ValidationIssue}
    (h : StructureVal.citesMissing sect i = true) : i.level = "ERROR" := by
  unfold StructureVal.citesMissing at h
  simp only [Bool.and_eq_true, beq_iff_eq] at h
  exact h.1

theorem citesMissing_of_warning {sect : String} {i : StructureVal.ValidationIssue}
    (h : i.level = "WARNING") : StructureVal.citesMissing sect i = false := by
  simp [StructureVal.citesMissing, h]

theorem hierIssues_level :
    ∀ (prev idx : Nat) (lines : List (List Char)),
      ∀ i ∈ StructureVal.headingHierarchyIssuesGo prev idx lines, i.level = "WARNING" := by
  intro prev idx lines
  induction lines generalizing prev idx with
  | nil => intro i hi; simp [StructureVal.headingHierarchyIssuesGo] at hi
  | cons line rest ih =>
    intro i hi
    rw [StructureVal.headingHierarchyIssuesGo] at hi
    cases hml : StructureVal.lineHeadingLevel line with
    | none => rw [hml] at hi; exact ih _ _ i hi
    | some level =>
        rw [hml] at hi
        rcases List.mem_append.mp hi with h1 | h2
        · by_cases hc : level > prev + 1 ∧ prev > 0
          · rw [if_pos hc] at h1
            rw [List.mem_singleton.mp h1]
          · rw [if_neg hc] at h1
            simp at h1
        · exact ih _ _ i h2

theorem emptyIssues_level :
    ∀ (idx : Nat) (lines : List (List Char)),
      ∀ i ∈ StructureVal.emptySectionIssuesGo idx lines, i.level = "WARNING" := by
  intro idx lines
  induction lines generalizing idx with
  | nil => intro i hi; simp [StructureVal.emptySectionIssuesGo] at hi
  | cons a rest ih =>
    intro i hi
    cases rest with
    | nil => simp [StructureVal.emptySectionIssuesGo] at hi
    | cons b rest2 =>
        simp only [StructureVal.emptySectionIssuesGo] at hi
        rcases List.mem_append.mp hi with h1 | h2
        · split at h1
          · rw [List.mem_singleton.mp h1]
          · simp at h1
        · exact ih _ i h2

theorem tableIssues_level :
    ∀ (inTable : Bool) (idx : Nat) (lines : List (List Char)),
      ∀ i ∈ StructureVal.tableIssuesGo inTable idx lines, i.level = "WARNING" := by
  intro inTable idx lines
  induction lines generalizing inTable idx with
  | nil => intro i hi; simp [StructureVal.tableIssuesGo] at hi
  | cons line rest ih =>
    intro i hi
    simp only [StructureVal.tableIssuesGo] at hi
    split at hi
    · exact ih _ _ i hi
    · split at hi
      · rcases List.mem_append.mp hi with h1 | h2
        · split at h1
          · split at h1
            · split at h1
              · rw [List.mem_singleton.mp h1]
              · simp at h1
            · simp at h1
          · simp at h1
        · exact ih _ _ i h2
      · exact ih _ _ i hi

theorem patternIssues_level (m : List Char → Option Nat) :
    ∀ (idx : Nat) (lines : List (List Char)),
      ∀ i ∈ StructureVal.patternIssuesGo m idx lines, i.level = "WARNING" := by
  intro idx lines
  induction lines generalizing idx with
  | nil => intro i hi; simp [StructureVal.patternIssuesGo] at hi
  | cons line rest ih =>
    intro i hi
    rw [StructureVal.patternIssuesGo] at hi
    rcases List.mem_append.mp hi with h1 | h2
    · obtain ⟨slice, hs, he⟩ := List.mem_map.mp h1
      rw [← he]
    · exact ih _ i h2

theorem genericIssues_level (p : List Char → Bool) :
    ∀ (idx : Nat) (lines : List (List Char)),
      ∀ i ∈ StructureVal.genericIssuesGo p idx lines, i.level = "WARNING" := by
  intro idx lines
  induction lines generalizing idx with
  | nil => intro i hi; simp [StructureVal.genericIssuesGo] at hi
  | cons line rest ih =>
    intro i hi
    rw [StructureVal.genericIssuesGo] at hi
    rcases List.mem_append.mp hi with h1 | h2
    · split at h1
      · rw [List.mem_singleton.mp h1]
      · simp at h1
    · exact ih _ i h2

theorem checkMarkdown_level {lines : List (List Char)} :
    ∀ i ∈ StructureVal.checkMarkdownStructure lines, i.level = "WARNING" := by
  intro i hi
  unfold StructureVal.checkMarkdownStructure at hi
  rcases List.mem_append.mp hi with h1 | h2
  · rcases List.mem_append.mp h1 with h1a | h1b
    · exact hierIssues_level 0 0 lines i h1a
    · exact emptyIssues_level 0 lines i h1b
  · exact tableIssues_level false 0 lines i h2

theorem checkPlaceholders_level {lines : List (List Char)} :
    ∀ i ∈ StructureVal.checkPlaceholders lines, i.level = "WARNING" := by
  intro i hi
  unfold StructureVal.checkPlaceholders at hi
  rcases List.mem_append.mp hi with h | h2
  rotate_left
  · exact genericIssues_level _ 0 lines i h2
  rcases List.mem_append.mp h with h | h2
  rotate_left
  · exact genericIssues_level _ 0 lines i h2
  rcases List.mem_append.mp h with h | h2
  rotate_left
  · exact genericIssues_level _ 0 lines i h2
  rcases List.mem_append.mp h with h | h2
  rotate_left
  · exact genericIssues_level _ 0 lines i h2
  rcases List.mem_append.mp h with h | h2
  rotate_left
  · exact genericIssues_level _ 0 lines i h2
  rcases List.mem_append.mp h with h | h2
  rotate_left
  · exact patternIssues_level _ 0 lines i h2
  rcases List.mem_append.mp h with h | h2
  rotate_left
  · exact patternIssues_level _ 0 lines i h2
  rcases List.mem_append.mp h with h | h2
  rotate_left
  · exact patternIssues_level _ 0 lines i h2
  exact patternIssues_level _ 0 lines i h

/-- Claim C3: for a document in which a required section name (from the fixed
eight-entry list) never occurs as the stripped text of a `## ` line, the
structural validator emits exactly one ERROR citing that section, and its exit
code is 1 whenever such an ERROR exists (with or without `--strict`). -/
theorem C3_missing_required_section (lines : List (List Char)) (sect : String)
    (subs : List String) (strict : Bool)
    (hmem : (sect, subs) ∈ StructureVal.REQUIRED_SECTIONS)
    (habs : ∀ line ∈ lines, ¬(litMatch "## ".data line = true ∧
        String.mk (stripChars (line.drop 3)) = sect)) :
    (StructureVal.executeIssues lines).countP (StructureVal.citesMissing sect) = 1 ∧
    StructureVal.executeExit lines strict = 1 := by
  have hmiss : dictHasKey sect (StructureVal.collectHeadings lines) = false := by
    by_contra hc
    rw [Bool.not_eq_false] at hc
    unfold StructureVal.collectHeadings at hc
    rcases collectGo_key [] none hc with hd | hcur | ⟨l, hl, hp⟩
    · simp [dictHasKey, dictGet] at hd
    · simp at hcur
    · exact habs l hl ⟨hp.1, hp.2⟩
  have hcount :
      (StructureVal.executeIssues lines).countP (StructureVal.citesMissing sect) = 1 := by
    unfold StructureVal.executeIssues StructureVal.checkRequiredSections
    rw [List.countP_append, List.countP_append, reqSecGo_countP]
    have hz1 : (StructureVal.checkMarkdownStructure lines).countP
        (StructureVal.citesMissing sect) = 0 := by
      rw [List.countP_eq_zero]
      intro i hi hc
      rw [citesMissing_of_warning (checkMarkdown_level i hi)] at hc
      exact Bool.false_ne_true hc
    have hz2 : (StructureVal.checkPlaceholders lines).countP
        (StructureVal.citesMissing sect) = 0 := by
      rw [List.countP_eq_zero]
      intro i hi hc
      rw [citesMissing_of_warning (checkPlaceholders_level i hi)] at hc
      exact Bool.false_ne_true hc
    rw [hz1, hz2]
    have hone : StructureVal.REQUIRED_SECTIONS.countP
        (fun e => e.1 == sect && !(dictHasKey e.1 (StructureVal.collectHeadings lines))) = 1 := by
      refine countP_key_unique (by decide) hmem _ ?_
      simp [hmiss]
    rw [hone]
  refine ⟨hcount, ?_⟩
  have hpos : 0 < (StructureVal.executeIssues lines).countP (StructureVal.citesMissing sect) := by
    rw [hcount]; exact Nat.one_pos
  obtain ⟨i, hi, hci⟩ := List.countP_pos_iff.mp hpos
  have hlev := citesMissing_level hci
  have hin : i ∈ (StructureVal.executeIssues lines).filter
      (fun j => decide (j.level = "ERROR")) :=
    List.mem_filter.mpr ⟨hi, by simp [hlev]⟩
  simp only [StructureVal.executeExit]
  rw [if_pos (Or.inl (List.ne_nil_of_mem hin))]

/-- Claim C3 witness: the empty document misses every required section; the
Executive Summary instance yields exactly one ERROR and exit code 1. -/
theorem C3_witness :
    (StructureVal.executeIssues []).countP (StructureVal.citesMissing "Executive Summary") = 1 ∧
    StructureVal.executeExit [] false = 1 :=
  C3_missing_required_section [] "Executive Summary" [] false (by decide) (by simp)

theorem lineHeadingLevel_pos {line : List Char} {k : Nat}
    (h : StructureVal.lineHeadingLevel line = some k) : 1 ≤ k := by
  simp only [StructureVal.lineHeadingLevel] at h
  split at h
  · rename_i hk
    split at h
    · split at h
      · split at h
        · exact (Option.some.inj h) ▸ hk.1
        · exact absurd h (by simp)
      · split at h
        · split at h
          · split at h
            · exact (Option.some.inj h) ▸ hk.1
            · exact absurd h (by simp)
          · exact absurd h (by simp)
        · exact absurd h (by simp)
    · exact absurd h (by simp)
  · exact absurd h (by simp)

theorem hierIssues_empty_iff :
    ∀ (lines : List (List Char)) (prev idx : Nat),
      (StructureVal.headingHierarchyIssuesGo prev idx lines = []) ↔
        StructureVal.noSkipGuarded prev (lines.filterMap StructureVal.lineHeadingLevel) = true := by
  intro lines
  induction lines with
  | nil => intro prev idx; simp [StructureVal.headingHierarchyIssuesGo, StructureVal.noSkipGuarded]
  | cons line rest ih =>
    intro prev idx
    rw [StructureVal.headingHierarchyIssuesGo]
    cases hml : StructureVal.lineHeadingLevel line with
    | none =>
        simp only [List.filterMap_cons, hml]
        exact ih prev (idx + 1)
    | some level =>
        simp only [List.filterMap_cons, hml, StructureVal.noSkipGuarded]
        by_cases hc : level > prev + 1 ∧ prev > 0
        · rw [if_pos hc]
          constructor
          · intro h; exact absurd h (by simp)
          · intro h
            rw [decide_eq_true hc.1, decide_eq_true hc.2] at h
            simp at h
        · rw [if_neg hc]
          rw [List.nil_append]
          rw [ih level (idx + 1)]
          constructor
          · intro h
            rw [h]
            have : (decide (level > prev + 1) && decide (prev > 0)) = false := by
              rcases Decidable.not_and_iff_or_not .. |>.mp hc with h1 | h1 <;> simp [h1]
            rw [this]
            simp
          · intro h
            simp only [Bool.and_eq_true, Bool.not_eq_true'] at h
            exact h.2
  
theorem proper_eq_guarded :
    ∀ (levels : List Nat) (prev : Nat), 1 ≤ prev → (∀ l ∈ levels, 1 ≤ l) →
      Scorer.properHierarchyScan prev levels = StructureVal.noSkipGuarded prev levels := by
  intro levels
  induction levels with
  | nil => intro prev _ _; rfl
  | cons l ls ih =>
    intro prev hprev hall
    rw [Scorer.properHierarchyScan, StructureVal.noSkipGuarded]
    by_cases hc : l > prev + 1
    · rw [if_pos hc, decide_eq_true hc, decide_eq_true (by omega : prev > 0)]
      simp
    · rw [if_neg hc]
      have : (decide (l > prev + 1) && decide (prev > 0)) = false := by
        simp [hc]
      rw [this]
      rw [ih l (hall l (List.mem_cons_self ..)) (fun x hx => hall x (List.mem_cons_of_mem _ hx))]
      simp

/-- Claim C9 counterexample: a document whose only heading is `## Title`.  The
structural validator finds no level skip (its first-heading guard
`prev_level > 0` suppresses a warning), but the scorer, whose scan starts from
a previous level of zero, judges the hierarchy improper and awards 3 instead
of the full 6 points. -/
theorem C9_counterexample :
    Scorer.structureSubScore "## Title".data = 3 ∧
    StructureVal.headingHierarchyIssues (pySplitlines "## Title".data) = [] := by
  refine ⟨by decide, by decide⟩

/-- Claim C9 as amended: whenever the two heading extractions agree and the
first extracted heading (if any) is a level-1 heading, the scorer awards its
full 6 structure points exactly when the structural validator finds no level
skip.  In general the scorer additionally penalises a document whose first
heading is deeper than level 1, and the two extractions differ on hash runs
whose whitespace crosses a newline. -/
theorem C9_agreement_amended (content : List Char)
    (hag : Scorer.scorerLevels content =
      StructureVal.validatorHeadingLevels (pySplitlines content))
    (hfirst : Scorer.scorerLevels content = [] ∨
      (Scorer.scorerLevels content).head? = some 1) :
    (Scorer.structureSubScore content = 6 ↔
      StructureVal.headingHierarchyIssues (pySplitlines content) = []) := by
  have hlev : ∀ l ∈ Scorer.scorerLevels content, 1 ≤ l := by
    rw [hag]
    intro l hl
    obtain ⟨line, hline, hsome⟩ := List.mem_filterMap.mp hl
    exact lineHeadingLevel_pos hsome
  have hcore : Scorer.properHierarchyScan 0 (Scorer.scorerLevels content) =
      StructureVal.noSkipGuarded 0 (Scorer.scorerLevels content) := by
    rcases hfirst with he | hh
    · rw [he]; rfl
    · cases hlv : Scorer.scorerLevels content with
      | nil => rfl
      | cons l ls =>
          rw [hlv] at hh
          have hl1 : l = 1 := by simpa using hh
          subst hl1
          rw [Scorer.properHierarchyScan, StructureVal.noSkipGuarded]
          have h1 : ¬ ((1 : Nat) > 0 + 1) := by omega
          rw [if_neg h1]
          have h2 : (decide ((1 : Nat) > 0 + 1) && decide ((0 : Nat) > 0)) = false := by decide
          rw [h2]
          have hall : ∀ x ∈ ls, 1 ≤ x := fun x hx =>
            hlev x (by rw [hlv]; exact List.mem_cons_of_mem _ hx)
          rw [proper_eq_guarded ls 1 (le_refl 1) hall]
          simp
  have hleft : (Scorer.structureSubScore content = 6) ↔
      Scorer.properHierarchyScan 0 (Scorer.scorerLevels content) = true := by
    unfold Scorer.structureSubScore
    rw [show ((Scorer.scorerHeadings content).map (fun h => h.1)) =
      Scorer.scorerLevels content from rfl]
    cases hp : Scorer.properHierarchyScan 0 (Scorer.scorerLevels content)
    · simp [hp]
    · simp [hp]
  have hright : (StructureVal.headingHierarchyIssues (pySplitlines content) = []) ↔
      StructureVal.noSkipGuarded 0
        (StructureVal.validatorHeadingLevels (pySplitlines content)) = true := by
    unfold StructureVal.headingHierarchyIssues StructureVal.validatorHeadingLevels
    exact hierIssues_empty_iff (pySplitlines content) 0 0
  rw [hleft, hright, ← hag, hcore]

/-- Claim C9 witness: a well-formed document starting with a level-1 heading,
on which the two predicates agree. -/
theorem C9_witness :
    Scorer.structureSubScore "# A\n## B".data = 6 ↔
      StructureVal.headingHierarchyIssues (pySplitlines "# A\n## B".data) = [] :=
  C9_agreement_amended "# A\n## B".data (by decide) (by decide)

theorem scoreDim_max (content : List Char) (d : Scorer.Dim) :
    (Scorer.scoreDim content d).max_score = 25 := by
  cases d <;> rfl

theorem structureSubScore_le (content : List Char) : Scorer.structureSubScore content ≤ 6 := by
  unfold Scorer.structureSubScore
  split <;> omega

theorem scoreDim_le (content : List Char) (d : Scorer.Dim) :
    (Scorer.scoreDim content d).score ≤ 25 := by
  cases d with
  | completeness =>
      show (Scorer.scoreCompleteness content).score ≤ 25
      simp only [Scorer.scoreCompleteness]
      have h1 : Scorer.foundSectionsCount content ≤ 8 :=
        le_trans (List.length_filter_le _ _) (by rfl)
      have h2 : Scorer.placeholderSubScore content ≤ 3 := by
        unfold Scorer.placeholderSubScore
        omega
      have h3 := Nat.min_le_left 8
        ((Scorer.countReqHeadings "FR-".data content +
          Scorer.countReqHeadings "NFR-".data content) / 2)
      have h4 := Nat.min_le_left 4 (Scorer.countInternalLinks content / 3)
      omega
  | clarity =>
      show (Scorer.scoreClarity content).score ≤ 25
      simp only [Scorer.scoreClarity]
      have h1 := Nat.min_le_left 8 (Scorer.countQuantified content / 3)
      have h2 := structureSubScore_le content
      have h3 := Nat.min_le_left 4
        (Scorer.countDiagrams content * 2 + Scorer.countTableRows content / 5)
      omega
  | implementability =>
      show (Scorer.scoreImplementability content).score ≤ 25
      simp only [Scorer.scoreImplementability]
      have h1 := Nat.min_le_left 10
        (Scorer.countTechMentions content * 2 + Scorer.countJustified content / 3)
      have h2 : (if Scorer.hasTimelineWord content then 2 else 0) ≤ 2 := by split <;> omega
      have h3 : (if Scorer.hasTeamWord content then 2 else 0) ≤ 2 := by split <;> omega
      have h4 : (if Scorer.hasBudgetWord content then 2 else 0) ≤ 2 := by split <;> omega
      have h5 := Nat.min_le_left 5 (Scorer.countDeps content / 4)
      have h6 := Nat.min_le_left 4 (Scorer.countRiskMentions content / 3)
      omega
  | testability =>
      show (Scorer.scoreTestability content).score ≤ 25
      simp only [Scorer.scoreTestability]
      have h1 := Nat.min_le_left 10
        (Scorer.countMeasurable content / 5 + Scorer.countThresholds content / 2)
      have h2 := Nat.min_le_left 8 (Scorer.countScenarios content)
      have h3 := Nat.min_le_left 3 (Scorer.countCriteria content)
      have h4 := Nat.min_le_left 4 (Scorer.countMetricMentions content / 3)
      omega

/-- Claim C1: for every document and every scored dimension subset, the
report total is exactly the sum of the dimension scores, and every dimension
score is bounded by its maximum of 25. -/
theorem C1_total_and_bounds (content : List Char) (dims : List Scorer.Dim) :
    (Scorer.executeReport content dims).total_score =
      ((Scorer.executeReport content dims).dimensions.map (fun d => d.score)).sum ∧
    ∀ d ∈ (Scorer.executeReport content dims).dimensions,
      d.score ≤ d.max_score ∧ d.max_score = 25 := by
  constructor
  · rfl
  · intro d hd
    simp only [Scorer.executeReport] at hd
    obtain ⟨dim, hdim, he⟩ := List.mem_map.mp hd
    rw [← he]
    exact ⟨(scoreDim_max content dim) ▸ scoreDim_le content dim, scoreDim_max content dim⟩

/-- Claim C1 witness: the empty document with the default dimension list, with
the bound instantiated at the Completeness dimension. -/
theorem C1_witness :
    (Scorer.executeReport [] Scorer.defaultDims).total_score =
      ((Scorer.executeReport [] Scorer.defaultDims).dimensions.map (fun d => d.score)).sum ∧
    (Scorer.scoreCompleteness []).score ≤ (Scorer.scoreCompleteness []).max_score := by
  have h := C1_total_and_bounds [] Scorer.defaultDims
  exact ⟨h.1, (h.2 (Scorer.scoreCompleteness []) (by decide)).1⟩

/-- Claim C6: with zero placeholder occurrences the placeholder sub-check of
the Completeness dimension awards its full 3 points, and in general the
sub-score is the integer `max(0, 3 - count)`, so each occurrence costs one
point down to a floor of zero. -/
theorem C6_placeholder_subscore (content : List Char) :
    (Scorer.countPlaceholders content = 0 → Scorer.placeholderSubScore content = 3) ∧
    (Scorer.placeholderSubScore content : Int) =
      max 0 (3 - (Scorer.countPlaceholders content : Int)) := by
  unfold Scorer.placeholderSubScore
  constructor
  · intro h; rw [h]; rfl
  · generalize Scorer.countPlaceholders content = n
    rw [Nat.zero_max]
    by_cases h : n ≤ 3
    · rw [max_eq_right (by omega : (0 : Int) ≤ 3 - (n : Int))]
      omega
    · rw [max_eq_left (by omega : (3 - (n : Int)) ≤ 0)]
      omega

/-- Claim C6 witness: the empty document contains no placeholder and receives
the full 3 points. -/
theorem C6_witness : Scorer.placeholderSubScore [] = 3 :=
  (C6_placeholder_subscore []).1 (by decide)

theorem statusRiskOf_cases (p : ℚ) :
    (((Scorer.statusRiskOf p).1 = "✅ READY FOR REVIEW" ∧
        (Scorer.statusRiskOf p).2 = "Low") ↔ (90 : ℚ) ≤ p) ∧
    (((Scorer.statusRiskOf p).1 = "⚠️ NEEDS IMPROVEMENT" ∧
        (Scorer.statusRiskOf p).2 = "Medium") ↔ ((85 : ℚ) ≤ p ∧ p < 90)) ∧
    (((Scorer.statusRiskOf p).1 = "❌ REQUIRES SIGNIFICANT WORK" ∧
        (Scorer.statusRiskOf p).2 = "High") ↔ p < 85) := by
  have hg : ((Scorer.thresholdGood : ℚ)) = 90 := by norm_num [Scorer.thresholdGood]
  have ha : ((Scorer.thresholdAcceptable : ℚ)) = 85 := by norm_num [Scorer.thresholdAcceptable]
  unfold Scorer.statusRiskOf
  rw [hg, ha]
  by_cases h1 : p ≥ 90
  · have h2 : ¬ p < 90 := not_lt.mpr h1
    have h3 : ¬ p < 85 := by intro h; exact h2 (h.trans (by norm_num))
    rw [if_pos h1]
    refine ⟨by simp [h1], ?_, ?_⟩
    · constructor
      · intro hcon; exact absurd hcon.1 (by decide)
      · intro hcon; exact absurd hcon.2 h2
    · constructor
      · intro hcon; exact absurd hcon.1 (by decide)
      · intro hcon; exact absurd hcon h3
  · rw [if_neg h1]
    rw [ge_iff_le, not_le] at h1
    by_cases h2 : p ≥ 85
    · rw [if_pos h2]
      rw [ge_iff_le] at h2
      refine ⟨?_, by simp [h2, h1], ?_⟩
      · constructor
        · intro hcon; exact absurd hcon.1 (by decide)
        · intro hcon; exact absurd h1 (not_lt.mpr hcon)
      · constructor
        · intro hcon; exact absurd hcon.1 (by decide)
        · intro hcon; exact absurd hcon (not_lt.mpr h2)
    · rw [if_neg h2]
      rw [ge_iff_le, not_le] at h2
      refine ⟨?_, ?_, by simp [h2]⟩
      · constructor
        · intro hcon; exact absurd hcon.1 (by decide)
        · intro hcon
          exact absurd hcon (not_le.mpr (h2.trans (by norm_num)))
      · constructor
        · intro hcon; exact absurd hcon.1 (by decide)
        · intro hcon; exact absurd h2 (not_lt.mpr hcon.1)

/-- Claim C2: the Quality Scorer classification over the default dimensions is
exactly a function of the total/max percentage: at least 90 gives the ready
status with Low risk, at least 85 but below 90 the needs-improvement status
with Medium risk, and below 85 the requires-significant-work status with High
risk. -/
theorem C2_status_from_percentage (content : List Char) :
    (((Scorer.executeReport content Scorer.defaultDims).status = "✅ READY FOR REVIEW" ∧
        (Scorer.executeReport content Scorer.defaultDims).risk_level = "Low") ↔
      (90 : ℚ) ≤ Scorer.percentageOf
        (Scorer.executeReport content Scorer.defaultDims).total_score
        (Scorer.executeReport content Scorer.defaultDims).max_score) ∧
    (((Scorer.executeReport content Scorer.defaultDims).status = "⚠️ NEEDS IMPROVEMENT" ∧
        (Scorer.executeReport content Scorer.defaultDims).risk_level = "Medium") ↔
      ((85 : ℚ) ≤ Scorer.percentageOf
          (Scorer.executeReport content Scorer.defaultDims).total_score
          (Scorer.executeReport content Scorer.defaultDims).max_score ∧
        Scorer.percentageOf
          (Scorer.executeReport content Scorer.defaultDims).total_score
          (Scorer.executeReport content Scorer.defaultDims).max_score < 90)) ∧
    (((Scorer.executeReport content Scorer.defaultDims).status = "❌ REQUIRES SIGNIFICANT WORK" ∧
        (Scorer.executeReport content Scorer.defaultDims).risk_level = "High") ↔
      Scorer.percentageOf
        (Scorer.executeReport content Scorer.defaultDims).total_score
        (Scorer.executeReport content Scorer.defaultDims).max_score < 85) :=
  statusRiskOf_cases _
